import Mathlib

/-!
# Convergence recipes of the ncloud auto scaling group resource

A shallow embedding of the polling recipes of
`internal/service/autoscaling/auto_scaling_group.go`: the three refresh closures
(`waitForAutoScalingGroupCapacity`, `waitForInAutoScalingGroupServerInstanceListDeletion`,
`waitForAutoScalingGroupDeletion`), the `retry.StateChangeConf` values they are wrapped in, and
the parts of `Create`, `Update` and `Delete` that decide whether a wait is started.

Conventions of the embedding:
* a Go pointer is an `Option` (`none` is the nil pointer);
* a Go `(value, error)` result is a pair whose second component is `none` for a nil error;
* dereferencing a nil pointer ends the run with `Exec.nilPanic`;
* `int32` values are integers, and arithmetic on them wraps (`int32Wrap`);
* `time.Duration` is an integer number of nanoseconds;
* every remote call a closure makes is recorded, in order, in `Run.calls`.
-/

namespace Ncloud

/-! ## Go values -/

/-- Go `error` value, identified by the text `err.Error()` yields. -/
structure GoError where
  text : String
deriving DecidableEq, Repr

/-- How a piece of Go code ends: it returns a value, or a nil pointer is dereferenced. -/
inductive Exec (α : Type) where
  | done (a : α)
  | nilPanic
deriving DecidableEq, Repr

/-- Two's complement wrap-around of `int32` arithmetic. -/
def int32Wrap (n : Int) : Int := (n + 2 ^ 31) % 2 ^ 32 - 2 ^ 31

/-- `time.Duration`: a signed number of nanoseconds. -/
abbrev Duration := Int

/-- `time.Second`. -/
def Second : Duration := 1000000000

/-! ## `strings.EqualFold` -/

/-- Representative of the simple case-folding orbit of a rune, for the orbits that contain an
ASCII letter: `A`..`Z` fold to `a`..`z`, and the two non-ASCII runes that Unicode simple folding
puts in an ASCII orbit, U+017F (long s) and U+212A (Kelvin sign), fold to `s` and `k`.
Every other rune is its own representative here, so the comparison built on it agrees with Go
whenever one of the two strings is ASCII, which is the only way the resource uses it. -/
def foldKey (c : Char) : Char :=
  if c = Char.ofNat 0x17F then 's'
  else if c = Char.ofNat 0x212A then 'k'
  else if 'A' ≤ c ∧ c ≤ 'Z' then Char.ofNat (c.toNat + 32)
  else c

/-- Go `strings.EqualFold`: equality of two strings under simple Unicode case folding, rune by
rune. -/
def EqualFold (s t : String) : Bool :=
  s.data.map foldKey == t.data.map foldKey

/-! ## SDK records -/

/-- Fields of `vautoscaling.InAutoScalingGroupServerInstance` the resource reads. All are
`*string`. -/
structure InAutoScalingGroupServerInstance where
  ServerInstanceNo : Option String
  HealthStatus : Option String
  LifecycleState : Option String
deriving DecidableEq, Repr

/-- Fields of `vautoscaling.AutoScalingGroup` the wait recipes read. `MinSize` and
`DesiredCapacity` are `*int32`. -/
structure AutoScalingGroup where
  AutoScalingGroupNo : Option String
  MinSize : Option Int
  DesiredCapacity : Option Int
  InAutoScalingGroupServerInstanceList : List InAutoScalingGroupServerInstance
deriving DecidableEq, Repr

/-- Body of `vautoscaling.DeleteAutoScalingGroupResponse` (request id and return code). -/
structure DeleteAutoScalingGroupResponse where
  RequestId : Option String
  ReturnCode : Option String
deriving DecidableEq, Repr

/-- Body of `vautoscaling.GetAutoScalingGroupListResponse`; the list holds pointers. -/
structure GetAutoScalingGroupListResponse where
  AutoScalingGroupList : List (Option AutoScalingGroup)
deriving DecidableEq, Repr

/-! ## Refresh results -/

/-- First component (`interface{}`) of what a refresh closure returns: the untyped `nil`,
the literal `0`, a group pointer or a delete response pointer. A typed pointer stays a
pointer value even when it is nil. -/
inductive Snapshot where
  | nil
  | int (n : Int)
  | group (g : Option AutoScalingGroup)
  | deleteResponse (r : Option DeleteAutoScalingGroupResponse)
deriving DecidableEq, Repr

/-- The triple `(interface{}, string, error)` a `retry.StateRefreshFunc` returns. -/
structure RefreshResult where
  result : Snapshot
  state : String
  err : Option GoError
deriving DecidableEq, Repr

/-- Remote operations the recipes issue. -/
inductive ApiCall where
  | getVpcAutoScalingGroup
  | getVpcInAutoScalingGroupServerInstanceList
  | GetAutoScalingGroupList
  | DeleteAutoScalingGroup
  | UpdateAutoScalingGroup
deriving DecidableEq, Repr

/-- One execution of a closure: the remote calls it made, in order, and how it ended. -/
structure Run (α : Type) where
  calls : List ApiCall
  outcome : Exec α
deriving DecidableEq, Repr

/-- The fields of `retry.StateChangeConf` the recipes set, apart from `Refresh`. -/
structure StateChangeConf where
  Pending : List String
  Target : List String
  Delay : Duration
  MinTimeout : Duration
  Timeout : Duration
deriving DecidableEq, Repr

/-! ## `waitForAutoScalingGroupCapacity` -/

/-- The counting loop of the capacity refresh (`currentServerInstanceCnt`, an `int32`),
started from `cnt`. `*i.HealthStatus` is read for every member; `*i.LifecycleState` only when
the left operand of `||` is false, that is when the health status matched. -/
def countInService : List InAutoScalingGroupServerInstance → Int → Exec Int
  | [], cnt => .done cnt
  | i :: rest, cnt =>
    match i.HealthStatus with
    | none => .nilPanic
    | some hs =>
      if !EqualFold hs "HLTHY" then countInService rest cnt
      else
        match i.LifecycleState with
        | none => .nilPanic
        | some ls =>
          if !EqualFold ls "INSVC" then countInService rest cnt
          else countInService rest (int32Wrap (cnt + 1))

/-- The pointer `minASG` of the capacity refresh: `asg.MinSize`, replaced by
`asg.DesiredCapacity` when that is not nil. -/
def minASG (asg : AutoScalingGroup) : Option Int :=
  if asg.DesiredCapacity ≠ none then asg.DesiredCapacity else asg.MinSize

/-- What the two reads of one capacity poll return: `getVpcAutoScalingGroup` and
`getVpcInAutoScalingGroupServerInstanceList`. -/
structure CapacityPoll where
  group : Option AutoScalingGroup × Option GoError
  instances : List InAutoScalingGroupServerInstance × Option GoError
deriving DecidableEq, Repr

/-- The `Refresh` closure of `waitForAutoScalingGroupCapacity`. -/
def capacityRefresh (p : CapacityPoll) : Run RefreshResult :=
  match p.group.2 with
  | some err => ⟨[.getVpcAutoScalingGroup], .done ⟨.nil, "", some err⟩⟩
  | none =>
    let calls := [ApiCall.getVpcAutoScalingGroup, .getVpcInAutoScalingGroupServerInstanceList]
    match p.instances.2 with
    | some err => ⟨calls, .done ⟨.nil, "", some err⟩⟩
    | none =>
      match countInService p.instances.1 0 with
      | .nilPanic => ⟨calls, .nilPanic⟩
      | .done currentServerInstanceCnt =>
        match p.group.1 with
        | none => ⟨calls, .nilPanic⟩
        | some asg =>
          match minASG asg with
          | none => ⟨calls, .nilPanic⟩
          | some m =>
            if currentServerInstanceCnt < m then
              ⟨calls, .done ⟨.group p.group.1, "waiting", none⟩⟩
            else
              ⟨calls, .done ⟨.group p.group.1, "ready", none⟩⟩

/-- The `retry.StateChangeConf` of `waitForAutoScalingGroupCapacity` for the timeout `wait`. -/
def capacityStateConf (wait : Duration) : StateChangeConf where
  Pending := ["pending", "waiting"]
  Target := ["ready"]
  Timeout := wait
  Delay := 2 * Second
  MinTimeout := 3 * Second

/-- A member counts towards capacity: its health status is HLTHY and its lifecycle state is
INSVC, both up to case. This is the specification side of the counting loop. -/
def healthyInService (i : InAutoScalingGroupServerInstance) : Bool :=
  match i.HealthStatus, i.LifecycleState with
  | some hs, some ls => EqualFold hs "HLTHY" && EqualFold ls "INSVC"
  | _, _ => false

/-- Number of members that count towards capacity. -/
def healthyCount (ms : List InAutoScalingGroupServerInstance) : Int :=
  (ms.countP healthyInService : Nat)

/-! ## `GetAutoScalingGroup` and `waitForInAutoScalingGroupServerInstanceListDeletion` -/

/-- `GetAutoScalingGroup`, applied to what `GetAutoScalingGroupList` returned: the error if
there is one, `(nil, nil)` for a nil response or an empty list, else the first group. -/
def GetAutoScalingGroup (api : Option GetAutoScalingGroupListResponse × Option GoError) :
    Option AutoScalingGroup × Option GoError :=
  match api.2 with
  | some err => (none, some err)
  | none =>
    match api.1 with
    | none => (none, none)
    | some resp =>
      match resp.AutoScalingGroupList with
      | [] => (none, none)
      | g :: _ => (g, none)

/-- The body of the drain `Refresh` closure after `GetAutoScalingGroup` has returned `got`. -/
def drainLabel (got : Option AutoScalingGroup × Option GoError) : Exec RefreshResult :=
  match got.2 with
  | some err => .done ⟨.int 0, "", some err⟩
  | none =>
    match got.1 with
    | none => .nilPanic
    | some asg =>
      if asg.InAutoScalingGroupServerInstanceList.length > 0 then
        .done ⟨.group (some asg), "INSVC", none⟩
      else
        .done ⟨.group (some asg), "TERMT", none⟩

/-- The `Refresh` closure of `waitForInAutoScalingGroupServerInstanceListDeletion`, for one
poll in which `GetAutoScalingGroupList` returns `api`. -/
def drainRefresh (api : Option GetAutoScalingGroupListResponse × Option GoError) :
    Run RefreshResult :=
  ⟨[.GetAutoScalingGroupList], drainLabel (GetAutoScalingGroup api)⟩

/-- The `retry.StateChangeConf` of `waitForInAutoScalingGroupServerInstanceListDeletion`;
`conn.DefaultStopTimeout` is declared outside this file and is a parameter. -/
def drainStateConf (DefaultStopTimeout : Duration) : StateChangeConf where
  Pending := ["INSVC"]
  Target := ["TERMT"]
  Delay := 2 * Second
  MinTimeout := 3 * Second
  Timeout := DefaultStopTimeout * 3

/-! ## `waitForAutoScalingGroupDeletion` -/

/-- The error body `GetCommonErrorBody` extracts from a failed call. -/
structure CommonError where
  ReturnCode : String
  ReturnMessage : String
deriving DecidableEq, Repr

/-- The `Refresh` closure of `waitForAutoScalingGroupDeletion`, for one poll in which
`DeleteAutoScalingGroup` returns `del`.

Two names the closure uses are declared outside this file and are parameters: the return code
`ApiErrorASGIsUsingPolicyOrLaunchConfigurationOnVpc`, and the helper `GetCommonErrorBody`, whose
second result the closure discards; its first result is a pointer to the body it could extract
(`none` when it could extract none), and `errBody.ReturnCode` dereferences it. -/
def deletionRefresh (ApiErrorASGIsUsingPolicyOrLaunchConfigurationOnVpc : String)
    (GetCommonErrorBody : GoError → Option CommonError × Option GoError)
    (del : Option DeleteAutoScalingGroupResponse × Option GoError) : Run RefreshResult :=
  let resp := del.1
  match del.2 with
  | some err =>
    match (GetCommonErrorBody err).1 with
    | none => ⟨[.DeleteAutoScalingGroup], .nilPanic⟩
    | some errBody =>
      if errBody.ReturnCode = ApiErrorASGIsUsingPolicyOrLaunchConfigurationOnVpc then
        ⟨[.DeleteAutoScalingGroup], .done ⟨.deleteResponse resp, "RUN", none⟩⟩
      else
        ⟨[.DeleteAutoScalingGroup], .done ⟨.int 0, "", some err⟩⟩
  | none => ⟨[.DeleteAutoScalingGroup], .done ⟨.deleteResponse resp, "DELETE", none⟩⟩

/-- The `retry.StateChangeConf` of `waitForAutoScalingGroupDeletion`; `conn.DefaultTimeout`
is declared outside this file and is a parameter. -/
def deletionStateConf (DefaultTimeout : Duration) : StateChangeConf where
  Pending := ["RUN"]
  Target := ["DELETE"]
  Delay := 2 * Second
  MinTimeout := 3 * Second
  Timeout := DefaultTimeout

/-! ## The wait decision of `Create` and `Update` -/

/-- What the lines after the mutating call of `Create` and `Update` do with the configured
`wait_for_capacity_timeout`. -/
inductive CapacityWait where
  | parseFailed (err : GoError)
  | noWait
  | waits (conf : StateChangeConf)
deriving DecidableEq, Repr

/-- `Create`, from `time.ParseDuration` on: `parsed` is what `time.ParseDuration` returned for
the configured text. A parse error returns, a zero duration returns, and any other duration
is handed to `waitForAutoScalingGroupCapacity` as its timeout. -/
def createCapacityWait (parsed : Duration × Option GoError) : CapacityWait :=
  match parsed.2 with
  | some err => .parseFailed err
  | none => if parsed.1 = 0 then .noWait else .waits (capacityStateConf parsed.1)

/-- `Update`, from `time.ParseDuration` on; the same lines as in `Create`. -/
def updateCapacityWait (parsed : Duration × Option GoError) : CapacityWait :=
  match parsed.2 with
  | some err => .parseFailed err
  | none => if parsed.1 = 0 then .noWait else .waits (capacityStateConf parsed.1)

/-! ## `autoScalingGroupResource.Delete` -/

/-- Operations `Delete` starts, in the order it starts them. -/
inductive DeleteStep where
  | UpdateAutoScalingGroup
  | waitForInAutoScalingGroupServerInstanceListDeletion
  | waitForAutoScalingGroupDeletion
deriving DecidableEq, Repr

/-- An error diagnostic: summary and detail. -/
structure Diagnostic where
  summary : String
  detail : String
deriving DecidableEq, Repr

/-- What the collaborators of one `Delete` run do: the diagnostics of reading the prior state,
the error of the `UpdateAutoScalingGroup` call that sets the sizes to zero, and the errors the
two waits return if they are started. -/
structure DeleteWorld where
  stateDiagnostics : List Diagnostic
  updateErr : Option GoError
  drainWaitErr : Option GoError
  deletionWaitErr : Option GoError
deriving DecidableEq, Repr

/-- Result of a `Delete` run: what it started and the diagnostics it leaves in the response. -/
structure DeleteTrace where
  steps : List DeleteStep
  diagnostics : List Diagnostic
deriving DecidableEq, Repr

/-- `resp.Diagnostics.AddError("WAITING FOR DELETE ERROR", err.Error())` when `err` is not nil. -/
def addWaitError (diags : List Diagnostic) (err : Option GoError) : List Diagnostic :=
  match err with
  | some e => diags ++ [⟨"WAITING FOR DELETE ERROR", e.text⟩]
  | none => diags

/-- `autoScalingGroupResource.Delete`. It returns early when reading the state left a
diagnostic and when the update call fails; the two waits follow one another, each adding a
diagnostic when it fails. -/
def Delete (w : DeleteWorld) : DeleteTrace :=
  if w.stateDiagnostics ≠ [] then ⟨[], w.stateDiagnostics⟩
  else
    match w.updateErr with
    | some err => ⟨[.UpdateAutoScalingGroup], w.stateDiagnostics ++ [⟨"DELETING ERROR", err.text⟩]⟩
    | none =>
      let d1 := addWaitError w.stateDiagnostics w.drainWaitErr
      let d2 := addWaitError d1 w.deletionWaitErr
      ⟨[.UpdateAutoScalingGroup, .waitForInAutoScalingGroupServerInstanceListDeletion,
        .waitForAutoScalingGroupDeletion], d2⟩

/-! ## `internal/verify`: the `NotContain` validator -/

/-- A `types.String` of the plugin framework: null, unknown, or a known string. -/
inductive TfString where
  | null
  | unknown
  | value (s : String)
deriving DecidableEq, Repr

/-- `types.String.IsNull`. -/
def TfString.IsNull : TfString → Bool
  | .null => true
  | _ => false

/-- `types.String.IsUnknown`. -/
def TfString.IsUnknown : TfString → Bool
  | .unknown => true
  | _ => false

/-- `types.String.ValueString`: the known string, and the empty string for null and unknown. -/
def TfString.ValueString : TfString → String
  | .value s => s
  | _ => ""

/-- Whether `sub` occurs in `s` as a block of consecutive characters, tried at every
position of `s` from the left. -/
def hasInfix : List Char → List Char → Bool
  | [], sub => sub.isEmpty
  | c :: s, sub => sub.isPrefixOf (c :: s) || hasInfix s sub

/-- Go `strings.Contains`. -/
def Contains (s substr : String) : Bool :=
  hasInfix s.data substr.data

/-- The fields of `validator.StringRequest` the validator reads. -/
structure StringRequest where
  Path : String
  ConfigValue : TfString
deriving DecidableEq, Repr

/-- An error diagnostic bound to an attribute path, as `AddAttributeError` builds it. -/
structure AttributeError where
  path : String
  summary : String
  detail : String
deriving DecidableEq, Repr

/-- The validator type of `stringvalidator.go`. -/
structure notContainValidator where
  target : String
deriving DecidableEq, Repr

/-- `NotContain`. -/
def NotContain (target : String) : notContainValidator :=
  { target := target }

/-- `notContainValidator.Description`: `fmt.Sprintf` with one `%s` verb puts the target
between the two fixed pieces of text. -/
def notContainValidator.Description (v : notContainValidator) : String :=
  "Value must not contain the string '" ++ v.target ++ "'."

/-- `notContainValidator.MarkdownDescription`. -/
def notContainValidator.MarkdownDescription (v : notContainValidator) : String :=
  v.Description

/-- `notContainValidator.ValidateString`: the diagnostics it adds to the response with
`AddAttributeError`, in order. -/
def notContainValidator.ValidateString (v : notContainValidator) (req : StringRequest) :
    List AttributeError :=
  if req.ConfigValue.IsNull || req.ConfigValue.IsUnknown then []
  else if Contains req.ConfigValue.ValueString v.target then
    [⟨req.Path, "Invalid Value", "Value must not contain the string '" ++ v.target ++ "'."⟩]
  else []

/-! ## Name validators -/

/-- One piece of a regular expression: a character class that is matched once, any number
of times (`*`) or at least once (`+`). -/
inductive RegexItem where
  | one (cls : Char → Bool)
  | star (cls : Char → Bool)
  | plus (cls : Char → Bool)

/-- Matching of `cls*` followed by the rest of the pattern `k`: the rest matches here, or
the class takes one more character. -/
def starLoop (cls : Char → Bool) (k : List Char → Bool) : List Char → Bool
  | [] => k []
  | c :: s => k (c :: s) || (cls c && starLoop cls k s)

/-- Whether the whole text matches the pieces in sequence: the meaning of a pattern
`^...$` whose body is that sequence (in Go `^` and `$` stand for the two ends of the text). -/
def matchItems : List RegexItem → List Char → Bool
  | [], s => s.isEmpty
  | .one cls :: items, s =>
    match s with
    | [] => false
    | c :: s => cls c && matchItems items s
  | .star cls :: items, s => starLoop cls (fun t => matchItems items t) s
  | .plus cls :: items, s =>
    match s with
    | [] => false
    | c :: s => cls c && starLoop cls (fun t => matchItems items t) s

/-- The class `[a-z]`. -/
def clsLower (c : Char) : Bool := 'a' ≤ c && c ≤ 'z'

/-- The class `[0-9]`. -/
def clsDigit (c : Char) : Bool := '0' ≤ c && c ≤ '9'

/-- The class `[a-z0-9-]`. -/
def clsLowerDigitHyphen (c : Char) : Bool := clsLower c || clsDigit c || c == '-'

/-- The class `[a-z0-9]`. -/
def clsLowerDigit (c : Char) : Bool := clsLower c || clsDigit c

/-- The class `.`: every character but the line feed. -/
def clsDot (c : Char) : Bool := c != '\n'

/-- The class `[^-_]`. -/
def clsNotHyphenUnderscore (c : Char) : Bool := c != '-' && c != '_'

/-- The string validators of `terraform-plugin-framework-validators` the repository uses;
a regular expression is given by the pieces between its `^` and `$`. -/
inductive StringValidator where
  | LengthAtLeast (min : Nat)
  | LengthAtMost (max : Nat)
  | LengthBetween (min max : Nat)
  | RegexMatches (re : List RegexItem) (message : String)

/-- Whether a validator accepts a known string: the length validators compare `len(value)`,
the number of bytes of the UTF-8 text, `RegexMatches` asks whether the expression matches. -/
def StringValidator.accepts : StringValidator → String → Bool
  | .LengthAtLeast min, s => decide (min ≤ s.utf8ByteSize)
  | .LengthAtMost max, s => decide (s.utf8ByteSize ≤ max)
  | .LengthBetween min max, s =>
    decide (min ≤ s.utf8ByteSize) && decide (s.utf8ByteSize ≤ max)
  | .RegexMatches re _, s => matchItems re s.data

/-- `InstanceNameValidator`: lengths 3 to 30, `^[a-z][a-z0-9-]*$` and `^.*[^-_]$`. -/
def InstanceNameValidator : List StringValidator :=
  [ .LengthAtLeast 3,
    .LengthAtMost 30,
    .RegexMatches [.one clsLower, .star clsLowerDigitHyphen]
      "must only lowercase letters, numbers and special characters \"-\" are allowed and must start with an alphabetic character",
    .RegexMatches [.star clsDot, .one clsNotHyphenUnderscore]
      "must end with an alphabetic character or number" ]

/-- The validators of the `name` attribute in `autoScalingGroupResource.Schema`:
`LengthBetween(1, 255)` and `^[a-z]+[a-z0-9-]+[a-z0-9]$`. -/
def nameValidators : List StringValidator :=
  [ .LengthBetween 1 255,
    .RegexMatches [.plus clsLower, .plus clsLowerDigitHyphen, .one clsLowerDigit]
      "Composed of lowercase alphabets, numbers, hyphen (-). Must start with an alphabetic character, and the last character can only be an English letter or number." ]

/-- What the claim about names asks of a string: only lowercase letters, digits and hyphens,
a lowercase letter first, a lowercase letter or digit last. -/
def wellFormedName (s : String) : Bool :=
  s.data.all clsLowerDigitHyphen &&
  (match s.data.head? with
    | some c => clsLower c
    | none => false) &&
  (match s.data.getLast? with
    | some c => clsLowerDigit c
    | none => false)

/-! ## The poller

`retry.StateChangeConf.WaitForStateContext` belongs to a library whose source is not part of
the repository sources; the specification describes it as the Convergence Poller. -/

/-- Modelled from the spec: the typed errors of the Convergence Poller (section 7), standing
for the errors of `WaitForStateContext`: cancellation, timeout with the last observed result,
a refresh error passed on as it is, and an unexpected state naming the label. -/
inductive WaitError where
  | cancellation
  | timeout (last : Option RefreshResult)
  | refresh (err : GoError)
  | unexpectedState (label : String)
deriving DecidableEq, Repr

/-- Modelled from the spec: how one `WaitFor` call of the Convergence Poller ends. Besides the
two results of its contract, success with the last snapshot or a typed error, a refresh that
dereferences a nil pointer ends the call, and `outOfFuel` marks a run cut off by the step
budget of the embedding. -/
inductive WaitEnd where
  | success (snapshot : Snapshot)
  | failure (err : WaitError)
  | nilPanic
  | outOfFuel
deriving DecidableEq, Repr

/-- Modelled from the spec: the record of one `WaitFor` call of the Convergence Poller: the
remote calls its refresh attempts made, the number of refresh attempts, the time elapsed
since the call began, and how it ended. -/
structure WaitRun where
  calls : List ApiCall
  attempts : Nat
  elapsed : Duration
  ending : WaitEnd
deriving DecidableEq, Repr

/-- Modelled from the spec: whether the context of a `WaitFor` call is cancelled at the
elapsed time `now`; `cancelAt` is the moment of the cancellation signal, if there is one. -/
def cancelled (cancelAt : Option Duration) (now : Duration) : Bool :=
  match cancelAt with
  | some c => decide (c ≤ now)
  | none => false

/-- Modelled from the spec: the interruptible sleep of the Convergence Poller (section 4.1,
steps 1 and f): the elapsed time after sleeping `d` from `now`, cut short by a cancellation
signal that arrives first. The poll interval does not grow and has no jitter. -/
def sleep (cancelAt : Option Duration) (now d : Duration) : Duration :=
  match cancelAt with
  | some c => if c < now + max d 0 then max now c else now + max d 0
  | none => now + max d 0

/-- Modelled from the spec: the loop of the Convergence Poller (section 4.1, step 2), which is
absent from the repository sources. In order: a cancelled context ends the call with a
cancellation error; an elapsed time that has reached the timeout ends it with a timeout
error carrying the last observed result; otherwise `refresh` is invoked (attempts are
numbered from 1), its error ends the call at once, a label in `Target` is success, a label in
`Pending` sleeps `MinTimeout` and loops, and any other label ends the call with an
unexpected-state error. `fuel` bounds the number of attempts. -/
def waitLoop (spec : StateChangeConf) (cancelAt : Option Duration)
    (refresh : Nat → Run RefreshResult) :
    Nat → Duration → Nat → List ApiCall → Option RefreshResult → WaitRun
  | 0, now, attempts, calls, _ => ⟨calls, attempts, now, .outOfFuel⟩
  | fuel + 1, now, attempts, calls, last =>
    if cancelled cancelAt now then ⟨calls, attempts, now, .failure .cancellation⟩
    else if spec.Timeout ≤ now then ⟨calls, attempts, now, .failure (.timeout last)⟩
    else
      match (refresh (attempts + 1)).outcome with
      | .nilPanic => ⟨calls ++ (refresh (attempts + 1)).calls, attempts + 1, now, .nilPanic⟩
      | .done r =>
        match r.err with
        | some err =>
          ⟨calls ++ (refresh (attempts + 1)).calls, attempts + 1, now, .failure (.refresh err)⟩
        | none =>
          if r.state ∈ spec.Target then
            ⟨calls ++ (refresh (attempts + 1)).calls, attempts + 1, now, .success r.result⟩
          else if r.state ∈ spec.Pending then
            waitLoop spec cancelAt refresh fuel (sleep cancelAt now spec.MinTimeout)
              (attempts + 1) (calls ++ (refresh (attempts + 1)).calls) (some r)
          else
            ⟨calls ++ (refresh (attempts + 1)).calls, attempts + 1, now,
              .failure (.unexpectedState r.state)⟩

/-- Modelled from the spec: `WaitFor(ctx, spec, refresh)` of the Convergence Poller (section
4.1), standing for `retry.StateChangeConf.WaitForStateContext`, which is absent from the
repository sources: sleep the initial delay, then run the loop. The poll specification is the
`StateChangeConf` (`Delay` is the initial delay, `MinTimeout` the minimum interval). -/
def WaitFor (fuel : Nat) (cancelAt : Option Duration) (spec : StateChangeConf)
    (refresh : Nat → Run RefreshResult) : WaitRun :=
  waitLoop spec cancelAt refresh fuel (sleep cancelAt 0 spec.Delay) 0 [] none

/-! ## The three waits -/

/-- The error `fmt.Errorf` builds in the three waits: the format text, the text arguments
before the error, and the error of the poller it wraps. -/
structure WrappedError where
  format : String
  args : List String
  cause : WaitError
deriving DecidableEq, Repr

/-- What a wait function gives back: a returned value, a nil pointer dereference inside a
refresh, or a run cut off by the step budget. -/
inductive Returned (α : Type) where
  | value (a : α)
  | nilPanic
  | outOfFuel
deriving DecidableEq, Repr

/-- The lines after `WaitForStateContext` in the drain and delete waits: an error of the
poller is wrapped with `fmt.Errorf`, success returns nil. -/
def wrapWaitError (format : String) (id : String) : WaitEnd → Returned (Option WrappedError)
  | .success _ => .value none
  | .failure err => .value (some ⟨format, [id], err⟩)
  | .nilPanic => .nilPanic
  | .outOfFuel => .outOfFuel

/-- A wait together with the record of its poll. -/
structure WaitCall (α : Type) where
  run : WaitRun
  result : Returned α

/-- `waitForInAutoScalingGroupServerInstanceListDeletion`; `polls k` is what
`GetAutoScalingGroupList` returns on attempt `k`. -/
def waitForInAutoScalingGroupServerInstanceListDeletion (fuel : Nat)
    (cancelAt : Option Duration) (DefaultStopTimeout : Duration) (id : String)
    (polls : Nat → Option GetAutoScalingGroupListResponse × Option GoError) :
    WaitCall (Option WrappedError) :=
  let run := WaitFor fuel cancelAt (drainStateConf DefaultStopTimeout)
    (fun k => drainRefresh (polls k))
  ⟨run, wrapWaitError
    "Error waiting for InAutoScalingGroupServerInstanceList (%s) to become deleting: %s" id
    run.ending⟩

/-- `waitForAutoScalingGroupDeletion`; `deletes k` is what `DeleteAutoScalingGroup` returns on
attempt `k`. -/
def waitForAutoScalingGroupDeletion (fuel : Nat) (cancelAt : Option Duration)
    (ApiErrorASGIsUsingPolicyOrLaunchConfigurationOnVpc : String)
    (GetCommonErrorBody : GoError → Option CommonError × Option GoError)
    (DefaultTimeout : Duration) (id : String)
    (deletes : Nat → Option DeleteAutoScalingGroupResponse × Option GoError) :
    WaitCall (Option WrappedError) :=
  let run := WaitFor fuel cancelAt (deletionStateConf DefaultTimeout)
    (fun k => deletionRefresh ApiErrorASGIsUsingPolicyOrLaunchConfigurationOnVpc
      GetCommonErrorBody (deletes k))
  ⟨run, wrapWaitError "Error waiting for AutoScalingGroup (%s) to become deleting: %s" id
    run.ending⟩

/-- `waitForAutoScalingGroupCapacity`; `polls k` is what the two reads return on attempt `k`.
On success it returns the captured `asg`, which is the group of the last refresh, the one
returned as the snapshot. -/
def waitForAutoScalingGroupCapacity (fuel : Nat) (cancelAt : Option Duration)
    (wait : Duration) (polls : Nat → CapacityPoll) :
    WaitCall (Option AutoScalingGroup × Option WrappedError) :=
  let run := WaitFor fuel cancelAt (capacityStateConf wait) (fun k => capacityRefresh (polls k))
  ⟨run,
    match run.ending with
    | .success (.group asg) => .value (asg, none)
    | .success _ => .value (none, none)
    | .failure err =>
      .value (none, some ⟨"error waiting for AutoScalingGroup capacity: %s", [], err⟩)
    | .nilPanic => .nilPanic
    | .outOfFuel => .outOfFuel⟩

/-! ## `internal/service/mysql`: the user list -/

/-- Fields of `vmysql.CloudMysqlUser` the data source reads. All are `*string`. -/
structure CloudMysqlUser where
  UserName : Option String
  HostIp : Option String
  Authority : Option String
deriving DecidableEq, Repr

/-- Body of `vmysql.GetCloudMysqlUserListResponse`; the list holds pointers. -/
structure GetCloudMysqlUserListResponse where
  CloudMysqlUserList : List (Option CloudMysqlUser)
deriving DecidableEq, Repr

/-- The paging fields of `vmysql.GetCloudMysqlUserListRequest` (both `*int32`, always set). -/
structure GetCloudMysqlUserListRequest where
  PageNo : Int
  PageSize : Int
deriving DecidableEq, Repr

/-- The assignment `users[i], users[j] = users[j], users[i]`; both indices are in range
wherever the loop uses it. -/
def swapAt {α : Type} (users : List α) (i j : Nat) : List α :=
  match users[i]?, users[j]? with
  | some a, some b => (users.set i b).set j a
  | _, _ => users

/-- The loop `for i, j := 0, len(users)-1; i < j; i, j = i+1, j-1` of
`reverseAndExcludeFirst`, from the indices `i` and `j` on; `fuel` bounds the number of
iterations. -/
def swapLoop {α : Type} : Nat → List α → Nat → Nat → List α
  | 0, users, _, _ => users
  | fuel + 1, users, i, j =>
    if i < j then swapLoop fuel (swapAt users i j) (i + 1) (j - 1) else users

/-- `reverseAndExcludeFirst`: a list of at most one user is returned as it is; a longer one
is reversed in place and returned from index 1 on. The loop gets as many steps as the list
has elements, which is more than it takes. -/
def reverseAndExcludeFirst (users : List (Option CloudMysqlUser)) :
    List (Option CloudMysqlUser) :=
  if users.length ≤ 1 then users
  else (swapLoop users.length users 0 (users.length - 1)).drop 1

/-- One run of `GetMysqlUserAllList`: the page requests it issued, in order, and what it
returned; the returned slice is `none` when it is nil. -/
structure UserListRun where
  requests : List GetCloudMysqlUserListRequest
  result : Returned (Option (List (Option CloudMysqlUser)) × Option GoError)
deriving DecidableEq, Repr

/-- The lines of `GetMysqlUserAllList` after its loop. -/
def finishUserList (allUsers : List (Option CloudMysqlUser))
    (requests : List GetCloudMysqlUserListRequest) : UserListRun :=
  if allUsers.length = 0 then ⟨requests, .value (none, none)⟩
  else ⟨requests, .value (some (reverseAndExcludeFirst allUsers), none)⟩

/-- The loop `for hasMore` of `GetMysqlUserAllList`, entered with `hasMore` true, with the
users collected so far and the page number (an `int32`); `GetCloudMysqlUserList` is the
remote call, `fuel` bounds the number of pages requested. -/
def userListLoop
    (GetCloudMysqlUserList : GetCloudMysqlUserListRequest →
      Option GetCloudMysqlUserListResponse × Option GoError) :
    Nat → List (Option CloudMysqlUser) → Int → List GetCloudMysqlUserListRequest →
      UserListRun
  | 0, _, _, requests => ⟨requests, .outOfFuel⟩
  | fuel + 1, allUsers, pageNo, requests =>
    match (GetCloudMysqlUserList ⟨pageNo, 100⟩).2 with
    | some err => ⟨requests ++ [⟨pageNo, 100⟩], .value (none, some err)⟩
    | none =>
      match (GetCloudMysqlUserList ⟨pageNo, 100⟩).1 with
      | none => finishUserList allUsers (requests ++ [⟨pageNo, 100⟩])
      | some resp =>
        if resp.CloudMysqlUserList.length = 100 then
          userListLoop GetCloudMysqlUserList fuel (allUsers ++ resp.CloudMysqlUserList)
            (int32Wrap (pageNo + 1)) (requests ++ [⟨pageNo, 100⟩])
        else
          finishUserList (allUsers ++ resp.CloudMysqlUserList)
            (requests ++ [⟨pageNo, 100⟩])

/-- `GetMysqlUserAllList`: pages are requested from page 0 with page size 100. -/
def GetMysqlUserAllList (fuel : Nat)
    (GetCloudMysqlUserList : GetCloudMysqlUserListRequest →
      Option GetCloudMysqlUserListResponse × Option GoError) : UserListRun :=
  userListLoop GetCloudMysqlUserList fuel [] 0 []

/-- The users of one page response: none for a nil response. -/
def pageUsers (r : Option GetCloudMysqlUserListResponse × Option GoError) :
    List (Option CloudMysqlUser) :=
  match r.1 with
  | some resp => resp.CloudMysqlUserList
  | none => []

/-- The users of the `n` pages from page `p` on, concatenated in page order. -/
def usersOfPages
    (api : GetCloudMysqlUserListRequest →
      Option GetCloudMysqlUserListResponse × Option GoError) : Nat → Nat →
      List (Option CloudMysqlUser)
  | _, 0 => []
  | p, n + 1 => pageUsers (api ⟨p, 100⟩) ++ usersOfPages api (p + 1) n

/-- The requests for the `n` pages from page `p` on, with page size 100. -/
def pageRequests : Nat → Nat → List GetCloudMysqlUserListRequest
  | _, 0 => []
  | p, n + 1 => ⟨p, 100⟩ :: pageRequests (p + 1) n

/-! ## The capacity refresh -/

theorem int32Wrap_of_range (n : Int) (h0 : 0 ≤ n) (h1 : n < 2 ^ 31) : int32Wrap n = n := by
  unfold int32Wrap
  omega

/-- When no member has a nil field and the counter cannot wrap, the counting loop returns the
starting value plus the number of members that are healthy and in service. -/
theorem countInService_eq (ms : List InAutoScalingGroupServerInstance) :
    ∀ cnt : Int, 0 ≤ cnt → cnt + ms.length < 2 ^ 31 →
      (∀ m ∈ ms, m.HealthStatus ≠ none ∧ m.LifecycleState ≠ none) →
      countInService ms cnt = .done (cnt + healthyCount ms) := by
  induction ms with
  | nil => intro cnt _ _ _; simp [countInService, healthyCount]
  | cons i rest ih =>
    intro cnt h0 hlen hset
    have hi := hset i (List.mem_cons_self _ _)
    have hrest : ∀ m ∈ rest, m.HealthStatus ≠ none ∧ m.LifecycleState ≠ none :=
      fun m hm => hset m (List.mem_cons_of_mem _ hm)
    simp only [List.length_cons, Nat.cast_add, Nat.cast_one] at hlen
    obtain ⟨no, hs, ls⟩ := i
    cases hs with
    | none => exact absurd rfl hi.1
    | some hs =>
      cases ls with
      | none => exact absurd rfl hi.2
      | some ls =>
        have hc := Nat.zero_le (List.countP healthyInService rest)
        by_cases h1 : EqualFold hs "HLTHY" = true
        · by_cases h2 : EqualFold ls "INSVC" = true
          · have hw : int32Wrap (cnt + 1) = cnt + 1 :=
              int32Wrap_of_range _ (by omega) (by omega)
            simp only [countInService, h1, h2, hw, Bool.not_true, Bool.false_eq_true,
              if_false]
            rw [ih (cnt + 1) (by omega) (by omega) hrest]
            simp [healthyCount, healthyInService, h1, h2, List.countP_cons]
            omega
          · simp only [countInService, h1, h2, Bool.not_true, Bool.not_false,
              Bool.false_eq_true, if_false, if_true]
            rw [ih cnt h0 (by omega) hrest]
            simp [healthyCount, healthyInService, h1, h2, List.countP_cons]
        · simp only [countInService, h1, Bool.not_false, if_true]
          rw [ih cnt h0 (by omega) hrest]
          simp [healthyCount, healthyInService, h1, List.countP_cons]

/-- The capacity refresh on a loaded group and member list: it returns the group with the
label decided by comparing the healthy in-service count with the target `minASG`. -/
theorem capacityRefresh_loaded (g : AutoScalingGroup)
    (ms : List InAutoScalingGroupServerInstance) (target : Int)
    (hset : ∀ m ∈ ms, m.HealthStatus ≠ none ∧ m.LifecycleState ≠ none)
    (hlen : ms.length < 2 ^ 31) (htarget : minASG g = some target) :
    (capacityRefresh ⟨(some g, none), (ms, none)⟩).outcome =
      .done ⟨.group (some g), if healthyCount ms < target then "waiting" else "ready", none⟩ := by
  have hcount := countInService_eq ms 0 (le_refl 0) (by push_cast; omega) hset
  simp only [zero_add] at hcount
  simp only [capacityRefresh, hcount, htarget]
  split <;> rfl

/-- C1: in the refresh step of `waitForAutoScalingGroupCapacity`, when the group and the
member list load without error, the refresh returns a label with a nil error, and that label
is "ready" if and only if the number of members whose health status is HLTHY and whose
lifecycle state is INSVC (both, up to case) is at least the capacity target, and "waiting" if
and only if it is below; the count is the number of members passing both tests, so a member
failing either test adds nothing to it. Loaded means no field read is nil and the list is
short enough for the `int32` counter. -/
theorem capacityRefresh_label_iff_healthy_count (g : AutoScalingGroup)
    (ms : List InAutoScalingGroupServerInstance) (target : Int)
    (hset : ∀ m ∈ ms, m.HealthStatus ≠ none ∧ m.LifecycleState ≠ none)
    (hlen : ms.length < 2 ^ 31) (htarget : minASG g = some target) :
    ∃ r, (capacityRefresh ⟨(some g, none), (ms, none)⟩).outcome = .done r ∧ r.err = none ∧
      (r.state = "ready" ↔ target ≤ healthyCount ms) ∧
      (r.state = "waiting" ↔ healthyCount ms < target) ∧
      healthyCount ms = ((ms.filter healthyInService).length : Nat) ∧
      ∀ m, healthyInService m = false → healthyCount (m :: ms) = healthyCount ms := by
  refine ⟨_, capacityRefresh_loaded g ms target hset hlen htarget, rfl, ?_, ?_, ?_, ?_⟩
  · by_cases h : healthyCount ms < target
    · simp only [h, if_true]
      constructor
      · intro hw; exact absurd hw (by decide)
      · intro hle; omega
    · simp only [h, if_false, true_iff]
      omega
  · by_cases h : healthyCount ms < target
    · simp [h]
    · simp only [h, if_false, iff_false]
      decide
  · simp [healthyCount, List.countP_eq_length_filter]
  · intro m hm
    simp [healthyCount, List.countP_cons, hm]

/-- C1 at a concrete poll: three members, of which two are healthy and in service (one of them
reported in lower case), against a minimum size of two. -/
theorem capacityRefresh_label_iff_healthy_count_witness :
    (∃ r, (capacityRefresh ⟨(some ⟨some "7", some 2, none, []⟩, none),
        ([⟨some "a", some "hlthy", some "insvc"⟩, ⟨some "b", some "HLTHY", some "INSVC"⟩,
          ⟨some "c", some "HLTHY", some "TERMT"⟩], none)⟩).outcome = .done r ∧ r.err = none ∧
      (r.state = "ready" ↔ (2 : Int) ≤ healthyCount
        [⟨some "a", some "hlthy", some "insvc"⟩, ⟨some "b", some "HLTHY", some "INSVC"⟩,
          ⟨some "c", some "HLTHY", some "TERMT"⟩]) ∧
      (r.state = "waiting" ↔ healthyCount
        [⟨some "a", some "hlthy", some "insvc"⟩, ⟨some "b", some "HLTHY", some "INSVC"⟩,
          ⟨some "c", some "HLTHY", some "TERMT"⟩] < 2) ∧
      healthyCount [⟨some "a", some "hlthy", some "insvc"⟩, ⟨some "b", some "HLTHY", some "INSVC"⟩,
          ⟨some "c", some "HLTHY", some "TERMT"⟩] =
        (([⟨some "a", some "hlthy", some "insvc"⟩, ⟨some "b", some "HLTHY", some "INSVC"⟩,
          ⟨some "c", some "HLTHY", some "TERMT"⟩].filter healthyInService).length : Nat) ∧
      ∀ m, healthyInService m = false →
        healthyCount (m :: [⟨some "a", some "hlthy", some "insvc"⟩,
          ⟨some "b", some "HLTHY", some "INSVC"⟩, ⟨some "c", some "HLTHY", some "TERMT"⟩]) =
        healthyCount [⟨some "a", some "hlthy", some "insvc"⟩,
          ⟨some "b", some "HLTHY", some "INSVC"⟩, ⟨some "c", some "HLTHY", some "TERMT"⟩]) ∧
    (capacityRefresh ⟨(some ⟨some "7", some 2, none, []⟩, none),
        ([⟨some "a", some "hlthy", some "insvc"⟩, ⟨some "b", some "HLTHY", some "INSVC"⟩,
          ⟨some "c", some "HLTHY", some "TERMT"⟩], none)⟩).outcome =
      .done ⟨.group (some ⟨some "7", some 2, none, []⟩), "ready", none⟩ :=
  ⟨capacityRefresh_label_iff_healthy_count ⟨some "7", some 2, none, []⟩
      [⟨some "a", some "hlthy", some "insvc"⟩, ⟨some "b", some "HLTHY", some "INSVC"⟩,
        ⟨some "c", some "HLTHY", some "TERMT"⟩] 2 (by decide) (by decide) (by decide),
    by decide⟩

/-- C2: the capacity target the refresh step of `waitForAutoScalingGroupCapacity` compares the
healthy count with is the group's DesiredCapacity whenever that is set, whatever MinSize is
(also when DesiredCapacity is zero or below MinSize), and is the group's MinSize when
DesiredCapacity is unset. -/
theorem capacityRefresh_target_desired_else_min (g : AutoScalingGroup)
    (ms : List InAutoScalingGroupServerInstance)
    (hset : ∀ m ∈ ms, m.HealthStatus ≠ none ∧ m.LifecycleState ≠ none)
    (hlen : ms.length < 2 ^ 31) :
    (∀ d, g.DesiredCapacity = some d →
      minASG g = some d ∧
      (capacityRefresh ⟨(some g, none), (ms, none)⟩).outcome =
        .done ⟨.group (some g), if healthyCount ms < d then "waiting" else "ready", none⟩) ∧
    (g.DesiredCapacity = none →
      minASG g = g.MinSize ∧
      ∀ m, g.MinSize = some m →
        (capacityRefresh ⟨(some g, none), (ms, none)⟩).outcome =
          .done ⟨.group (some g), if healthyCount ms < m then "waiting" else "ready", none⟩) := by
  constructor
  · intro d hd
    have ht : minASG g = some d := by simp [minASG, hd]
    exact ⟨ht, capacityRefresh_loaded g ms d hset hlen ht⟩
  · intro hd
    have ht : minASG g = g.MinSize := by simp [minASG, hd]
    refine ⟨ht, fun m hm => ?_⟩
    exact capacityRefresh_loaded g ms m hset hlen (by rw [ht, hm])

/-- C2 at a concrete poll: with DesiredCapacity zero and MinSize two, a group with one
unhealthy member is already "ready", because the target is the desired capacity. -/
theorem capacityRefresh_target_desired_else_min_witness :
    (capacityRefresh ⟨(some ⟨some "7", some 2, some 0, []⟩, none),
        ([⟨some "a", some "UNHLTHY", some "INSVC"⟩], none)⟩).outcome =
      .done ⟨.group (some ⟨some "7", some 2, some 0, []⟩),
        if healthyCount [⟨some "a", some "UNHLTHY", some "INSVC"⟩] < 0 then "waiting"
        else "ready", none⟩ ∧
    healthyCount [⟨some "a", some "UNHLTHY", some "INSVC"⟩] = 0 :=
  ⟨((capacityRefresh_target_desired_else_min ⟨some "7", some 2, some 0, []⟩
      [⟨some "a", some "UNHLTHY", some "INSVC"⟩] (by decide) (by decide)).1 0 rfl).2,
    by decide⟩

/-! ## The poll specification of the capacity wait -/

/-- C3, as the code has it: the poll specification built by `waitForAutoScalingGroupCapacity`
has the pending set {"pending", "waiting"} and the target set {"ready"}, for every timeout. -/
theorem capacityStateConf_pending_target (wait : Duration) (l : String) :
    (capacityStateConf wait).Pending = ["pending", "waiting"] ∧
    (capacityStateConf wait).Target = ["ready"] ∧
    (l ∈ (capacityStateConf wait).Pending ↔ l = "pending" ∨ l = "waiting") ∧
    (l ∈ (capacityStateConf wait).Target ↔ l = "ready") := by
  simp [capacityStateConf]

/-- C3 as stated fails: the pending set of the capacity poll specification is not
{"waiting"}, since it also holds the label "pending". -/
theorem capacityStateConf_pending_not_only_waiting :
    ¬ (∀ l, l ∈ (capacityStateConf (10 * Second)).Pending ↔ l = "waiting") := by
  intro h
  have hp : "pending" ∈ (capacityStateConf (10 * Second)).Pending := by
    simp [capacityStateConf]
  exact absurd ((h "pending").1 hp) (by decide)

/-! ## The delete-until-accepted refresh -/

/-- The error rule of the refresh step of `waitForAutoScalingGroupDeletion` on the delete
outcomes whose error, if any, carries an error body: the refresh returns a non-nil error if
and only if the delete call failed with a return code different from
`ApiErrorASGIsUsingPolicyOrLaunchConfigurationOnVpc`; the error it then returns is the delete
call's error, and otherwise the returned error is nil. -/
theorem deletionRefresh_error_iff_other_code (code : String)
    (getBody : GoError → Option CommonError × Option GoError)
    (resp : Option DeleteAutoScalingGroupResponse) (callErr : Option GoError)
    (hbody : ∀ e, callErr = some e → (getBody e).1 ≠ none) :
    ∃ r, (deletionRefresh code getBody (resp, callErr)).outcome = .done r ∧
      (r.err ≠ none ↔
        ∃ e b, callErr = some e ∧ (getBody e).1 = some b ∧ b.ReturnCode ≠ code) ∧
      (r.err ≠ none → r.err = callErr) := by
  cases callErr with
  | none => exact ⟨_, rfl, by simp, by simp⟩
  | some e =>
    cases hb : (getBody e).1 with
    | none => exact absurd hb (hbody e rfl)
    | some b =>
      by_cases hc : b.ReturnCode = code
      · refine ⟨⟨.deleteResponse resp, "RUN", none⟩, ?_, ?_, ?_⟩
        · simp [deletionRefresh, hb, hc]
        · simp [hb, hc]
        · simp
      · refine ⟨⟨.int 0, "", some e⟩, ?_, ?_, ?_⟩
        · simp [deletionRefresh, hb, hc]
        · simp [hb, hc]
        · simp

/-- The error rule at a concrete delete call that fails with another code than the in-use
code; the error body helper of the example reports the error text as the return code. -/
theorem deletionRefresh_error_iff_other_code_witness :
    ∃ r, (deletionRefresh "IN_USE" (fun e => (some ⟨e.text, ""⟩, none))
        (none, some ⟨"LIMIT_EXCEEDED"⟩)).outcome = .done r ∧
      (r.err ≠ none ↔
        ∃ e b, some (GoError.mk "LIMIT_EXCEEDED") = some e ∧
          ((fun e : GoError => ((some ⟨e.text, ""⟩ : Option CommonError),
            (none : Option GoError))) e).1 = some b ∧ b.ReturnCode ≠ "IN_USE") ∧
      (r.err ≠ none → r.err = some ⟨"LIMIT_EXCEEDED"⟩) :=
  deletionRefresh_error_iff_other_code "IN_USE" (fun e => (some ⟨e.text, ""⟩, none))
    none (some ⟨"LIMIT_EXCEEDED"⟩) (by simp)

/-- C4 fails on the code: when the delete call fails with an error from which
`GetCommonErrorBody` extracts no body (it returns a nil body and an error of its own, which
the closure discards), the refresh step of `waitForAutoScalingGroupDeletion` reads
`errBody.ReturnCode` through the nil pointer: it returns neither the delete call's error nor
any other result, although the failure does not carry the in-use code. -/
theorem deletionRefresh_bodiless_failure_panics :
    (fun _ : GoError => ((none : Option CommonError),
      some (GoError.mk "error body is incorrect"))) ⟨"connection reset by peer"⟩ =
      (none, some ⟨"error body is incorrect"⟩) ∧
    deletionRefresh "IN_USE" (fun _ => (none, some ⟨"error body is incorrect"⟩))
        (none, some ⟨"connection reset by peer"⟩) =
      ⟨[.DeleteAutoScalingGroup], .nilPanic⟩ ∧
    ¬ ∃ r, (deletionRefresh "IN_USE" (fun _ => (none, some ⟨"error body is incorrect"⟩))
        (none, some ⟨"connection reset by peer"⟩)).outcome = .done r := by
  refine ⟨rfl, rfl, ?_⟩
  rintro ⟨r, hr⟩
  cases hr

/-- C5: in the refresh step of `waitForAutoScalingGroupDeletion`, a successful delete call
yields the label "DELETE", which is in the declared target set and not in the pending set,
and a delete call failing with the in-use code yields the label "RUN", which is in the
declared pending set and not in the target set; both come with a nil error. -/
theorem deletionRefresh_labels (code : String)
    (getBody : GoError → Option CommonError × Option GoError)
    (resp : Option DeleteAutoScalingGroupResponse) (DefaultTimeout : Duration) :
    ((deletionRefresh code getBody (resp, none)).outcome =
        .done ⟨.deleteResponse resp, "DELETE", none⟩ ∧
      "DELETE" ∈ (deletionStateConf DefaultTimeout).Target ∧
      "DELETE" ∉ (deletionStateConf DefaultTimeout).Pending) ∧
    ((∀ e b, (getBody e).1 = some b → b.ReturnCode = code →
        (deletionRefresh code getBody (resp, some e)).outcome =
          .done ⟨.deleteResponse resp, "RUN", none⟩) ∧
      "RUN" ∈ (deletionStateConf DefaultTimeout).Pending ∧
      "RUN" ∉ (deletionStateConf DefaultTimeout).Target) := by
  refine ⟨⟨rfl, by simp [deletionStateConf], by simp [deletionStateConf]⟩,
    ⟨?_, by simp [deletionStateConf], by simp [deletionStateConf]⟩⟩
  intro e b hb hc
  simp [deletionRefresh, hb, hc]

/-- C5 at a concrete delete call that fails with the in-use code. -/
theorem deletionRefresh_labels_witness :
    (deletionRefresh "IN_USE" (fun e => (some ⟨e.text, ""⟩, none))
        (none, some ⟨"IN_USE"⟩)).outcome = .done ⟨.deleteResponse none, "RUN", none⟩ :=
  (deletionRefresh_labels "IN_USE" (fun e => (some ⟨e.text, ""⟩, none)) none
    (600 * Second)).2.1 ⟨"IN_USE"⟩ ⟨"IN_USE", ""⟩ rfl rfl

/-- C6, as the code has it: when the delete call fails with a return code other than
`ApiErrorASGIsUsingPolicyOrLaunchConfigurationOnVpc`, as a "not found" response does, the
refresh step of `waitForAutoScalingGroupDeletion` returns that error unchanged with the
result 0 and the empty label, which is neither a target nor a pending label. -/
theorem deletionRefresh_other_code_propagates (code : String)
    (getBody : GoError → Option CommonError × Option GoError)
    (resp : Option DeleteAutoScalingGroupResponse) (DefaultTimeout : Duration)
    (e : GoError) (b : CommonError)
    (hb : (getBody e).1 = some b) (hc : b.ReturnCode ≠ code) :
    (deletionRefresh code getBody (resp, some e)).outcome = .done ⟨.int 0, "", some e⟩ ∧
    "" ∉ (deletionStateConf DefaultTimeout).Target ∧
    "" ∉ (deletionStateConf DefaultTimeout).Pending := by
  refine ⟨?_, by simp [deletionStateConf], by simp [deletionStateConf]⟩
  simp [deletionRefresh, hb, hc]

/-- C6, amended, at a concrete delete call answered "not found". -/
theorem deletionRefresh_other_code_propagates_witness :
    (deletionRefresh "IN_USE" (fun e => (some ⟨e.text, ""⟩, none))
        (none, some ⟨"NOT_FOUND"⟩)).outcome = .done ⟨.int 0, "", some ⟨"NOT_FOUND"⟩⟩ ∧
    "" ∉ (deletionStateConf (600 * Second)).Target ∧
    "" ∉ (deletionStateConf (600 * Second)).Pending :=
  deletionRefresh_other_code_propagates "IN_USE" (fun e => (some ⟨e.text, ""⟩, none)) none
    (600 * Second) ⟨"NOT_FOUND"⟩ ⟨"NOT_FOUND", ""⟩ rfl (by decide)

/-- C6 as stated fails: a delete call answered "not found" makes the refresh return the error,
not the target label with a nil error. -/
theorem deletionRefresh_not_found_not_success :
    (deletionRefresh "IN_USE" (fun e => (some ⟨e.text, ""⟩, none))
        (none, some ⟨"NOT_FOUND"⟩)).outcome = .done ⟨.int 0, "", some ⟨"NOT_FOUND"⟩⟩ ∧
    ¬ ∃ r, (deletionRefresh "IN_USE" (fun e => (some ⟨e.text, ""⟩, none))
        (none, some ⟨"NOT_FOUND"⟩)).outcome = .done r ∧
      r.state ∈ (deletionStateConf (600 * Second)).Target ∧ r.err = none := by
  refine ⟨by decide, ?_⟩
  rintro ⟨r, hr, _, herr⟩
  have h : (deletionRefresh "IN_USE" (fun e => (some ⟨e.text, ""⟩, none))
      (none, some ⟨"NOT_FOUND"⟩)).outcome = .done ⟨.int 0, "", some ⟨"NOT_FOUND"⟩⟩ := by
    decide
  rw [h] at hr
  cases hr
  cases herr

/-! ## The dependent-drain refresh -/

/-- C7: in the refresh step of `waitForInAutoScalingGroupServerInstanceListDeletion`, for
every group that loads without error, the refresh returns a nil error and a label that is
the declared pending label "INSVC" if and only if the group's attached-instance list is not
empty, and the declared target label "TERMT" if and only if it is empty; the label is a
function of the emptiness of that list alone. -/
theorem drainRefresh_label_iff_attached (g : AutoScalingGroup)
    (rest : List (Option AutoScalingGroup)) (DefaultStopTimeout : Duration) :
    ∃ r, (drainRefresh (some ⟨some g :: rest⟩, none)).outcome = .done r ∧ r.err = none ∧
      (r.state = "INSVC" ↔ g.InAutoScalingGroupServerInstanceList ≠ []) ∧
      (r.state = "TERMT" ↔ g.InAutoScalingGroupServerInstanceList = []) ∧
      r.state = (if g.InAutoScalingGroupServerInstanceList.isEmpty then "TERMT" else "INSVC") ∧
      (drainStateConf DefaultStopTimeout).Pending = ["INSVC"] ∧
      (drainStateConf DefaultStopTimeout).Target = ["TERMT"] := by
  cases hl : g.InAutoScalingGroupServerInstanceList with
  | nil =>
    refine ⟨⟨.group (some g), "TERMT", none⟩, ?_, rfl, ?_, ?_, ?_, rfl, rfl⟩
    · simp [drainRefresh, GetAutoScalingGroup, drainLabel, hl]
    · simp
    · simp
    · simp
  | cons i tl =>
    refine ⟨⟨.group (some g), "INSVC", none⟩, ?_, rfl, ?_, ?_, ?_, rfl, rfl⟩
    · simp [drainRefresh, GetAutoScalingGroup, drainLabel, hl]
    · simp
    · simp
    · simp

/-! ## `Delete` -/

/-- C8 fails on the code: in a `Delete` run whose drain wait returns an error, the
delete-until-accepted wait is started all the same, after the drain wait, and the run ends
with the diagnostic of the failed drain wait. -/
theorem Delete_starts_deletion_wait_after_failed_drain :
    Delete ⟨[], none, some ⟨"timeout while waiting for state to become TERMT"⟩, none⟩ =
      ⟨[.UpdateAutoScalingGroup, .waitForInAutoScalingGroupServerInstanceListDeletion,
          .waitForAutoScalingGroupDeletion],
        [⟨"WAITING FOR DELETE ERROR", "timeout while waiting for state to become TERMT"⟩]⟩ ∧
    DeleteStep.waitForAutoScalingGroupDeletion ∈
      (Delete ⟨[], none, some ⟨"timeout while waiting for state to become TERMT"⟩,
        none⟩).steps := by
  decide

/-! ## Invariants of the poll specifications -/

/-- C9: for each of the three poll specifications (capacity, dependent-drain,
delete-until-accepted) the declared pending set and the declared target set are disjoint:
no label is in both. -/
theorem stateConf_pending_target_disjoint (wait DefaultStopTimeout DefaultTimeout : Duration)
    (l : String) :
    ¬ (l ∈ (capacityStateConf wait).Pending ∧ l ∈ (capacityStateConf wait).Target) ∧
    ¬ (l ∈ (drainStateConf DefaultStopTimeout).Pending ∧
        l ∈ (drainStateConf DefaultStopTimeout).Target) ∧
    ¬ (l ∈ (deletionStateConf DefaultTimeout).Pending ∧
        l ∈ (deletionStateConf DefaultTimeout).Target) := by
  refine ⟨?_, ?_, ?_⟩
  · simp only [capacityStateConf, List.mem_cons, List.mem_singleton, List.not_mem_nil,
      or_false]
    rintro ⟨h | h, h2⟩ <;> · rw [h] at h2; exact absurd h2 (by decide)
  · simp only [drainStateConf, List.mem_singleton]
    rintro ⟨h, h2⟩
    rw [h] at h2; exact absurd h2 (by decide)
  · simp only [deletionStateConf, List.mem_singleton]
    rintro ⟨h, h2⟩
    rw [h] at h2; exact absurd h2 (by decide)

/-- C10, as the code has it: whenever `Create` or `Update` goes on to call
`waitForAutoScalingGroupCapacity`, the text parsed without error to a duration other than
zero, and the poll specification has that duration as its timeout (so the timeout is not
zero, and it is positive when the parsed duration is), an initial delay of 2 seconds and a
minimum interval of 3 seconds; every parsed duration other than zero leads to the call. -/
theorem capacityWait_conf_bounds (parsed : Duration × Option GoError) (conf : StateChangeConf)
    (h : createCapacityWait parsed = .waits conf ∨ updateCapacityWait parsed = .waits conf) :
    parsed.2 = none ∧ conf.Timeout = parsed.1 ∧ conf.Timeout ≠ 0 ∧
    (0 < parsed.1 → 0 < conf.Timeout) ∧
    conf.Delay = 2 * Second ∧ 0 ≤ conf.Delay ∧
    conf.MinTimeout = 3 * Second ∧ 0 < conf.MinTimeout ∧
    (∀ d : Duration, d ≠ 0 →
      createCapacityWait (d, none) = .waits (capacityStateConf d) ∧
      updateCapacityWait (d, none) = .waits (capacityStateConf d)) := by
  have key : createCapacityWait parsed = .waits conf := by
    rcases h with h | h
    · exact h
    · exact h
  obtain ⟨d, perr⟩ := parsed
  have hall : ∀ d : Duration, d ≠ 0 →
      createCapacityWait (d, none) = .waits (capacityStateConf d) ∧
      updateCapacityWait (d, none) = .waits (capacityStateConf d) := by
    intro d hd
    simp [createCapacityWait, updateCapacityWait, hd]
  cases perr with
  | some err => simp [createCapacityWait] at key
  | none =>
    by_cases hd : d = 0
    · simp [createCapacityWait, hd] at key
    · simp only [createCapacityWait, hd, if_false, CapacityWait.waits.injEq] at key
      subst key
      refine ⟨rfl, rfl, hd, fun h => h, rfl, ?_, rfl, ?_, hall⟩
      · simp [capacityStateConf, Second]
      · simp [capacityStateConf, Second]

/-- C10, amended, at the configured text "10m": the wait is started with a timeout of 600
seconds. -/
theorem capacityWait_conf_bounds_witness :
    createCapacityWait (600 * Second, none) = .waits (capacityStateConf (600 * Second)) ∧
    (capacityStateConf (600 * Second)).Timeout = 600 * Second ∧
    (capacityStateConf (600 * Second)).Timeout ≠ 0 ∧
    (capacityStateConf (600 * Second)).Delay = 2 * Second ∧
    0 < (capacityStateConf (600 * Second)).MinTimeout :=
  have h := capacityWait_conf_bounds (600 * Second, none) (capacityStateConf (600 * Second))
    (Or.inl (by decide))
  ⟨by decide, h.2.1, h.2.2.1, h.2.2.2.2.1, h.2.2.2.2.2.2.2.1⟩

/-- C10 as stated fails: the text "-5s" parses to a negative duration, which is not zero, so
`Create` and `Update` call `waitForAutoScalingGroupCapacity` with it, and the poll
specification then has a timeout that is not positive. -/
theorem capacityWait_negative_timeout :
    createCapacityWait (-5 * Second, none) = .waits (capacityStateConf (-5 * Second)) ∧
    updateCapacityWait (-5 * Second, none) = .waits (capacityStateConf (-5 * Second)) ∧
    ¬ 0 < (capacityStateConf (-5 * Second)).Timeout := by
  decide

/-! ## Load failures in the capacity refresh -/

/-- C11: in the refresh step of `waitForAutoScalingGroupCapacity`, a failure to load the
group descriptor is returned as the refresh error, unchanged, with no snapshot and the empty
label, and the member list is not read; a failure to load the member list is returned in
the same way; so a load failure never gives the label "waiting" or "ready". -/
theorem capacityRefresh_load_failure (p : CapacityPoll) (err : GoError) :
    (p.group.2 = some err →
      capacityRefresh p = ⟨[.getVpcAutoScalingGroup], .done ⟨.nil, "", some err⟩⟩ ∧
      ApiCall.getVpcInAutoScalingGroupServerInstanceList ∉ (capacityRefresh p).calls) ∧
    (p.group.2 = none → p.instances.2 = some err →
      capacityRefresh p =
        ⟨[.getVpcAutoScalingGroup, .getVpcInAutoScalingGroupServerInstanceList],
          .done ⟨.nil, "", some err⟩⟩) ∧
    ((p.group.2 ≠ none ∨ p.instances.2 ≠ none) →
      ∀ r, (capacityRefresh p).outcome = .done r →
        r.err ≠ none ∧ r.result = .nil ∧ r.state = "" ∧
        r.state ≠ "waiting" ∧ r.state ≠ "ready") := by
  refine ⟨?_, ?_, ?_⟩
  · intro hg
    simp [capacityRefresh, hg]
  · intro hg hi
    simp [capacityRefresh, hg, hi]
  · intro h r hr
    cases hg : p.group.2 with
    | some e =>
      simp only [capacityRefresh, hg, Exec.done.injEq] at hr
      subst hr
      simp
    | none =>
      cases hi : p.instances.2 with
      | some e =>
        simp only [capacityRefresh, hg, hi, Exec.done.injEq] at hr
        subst hr
        simp
      | none =>
        rcases h with h | h
        · exact absurd hg h
        · exact absurd hi h

/-- C11 at two concrete polls: the group read fails, and the member read fails. -/
theorem capacityRefresh_load_failure_witness :
    capacityRefresh ⟨(none, some ⟨"connection refused"⟩), ([], none)⟩ =
      ⟨[.getVpcAutoScalingGroup], .done ⟨.nil, "", some ⟨"connection refused"⟩⟩⟩ ∧
    capacityRefresh ⟨(some ⟨some "7", some 2, none, []⟩, none),
        ([], some ⟨"connection refused"⟩)⟩ =
      ⟨[.getVpcAutoScalingGroup, .getVpcInAutoScalingGroupServerInstanceList],
        .done ⟨.nil, "", some ⟨"connection refused"⟩⟩⟩ :=
  ⟨((capacityRefresh_load_failure ⟨(none, some ⟨"connection refused"⟩), ([], none)⟩
      ⟨"connection refused"⟩).1 rfl).1,
    (capacityRefresh_load_failure ⟨(some ⟨some "7", some 2, none, []⟩, none),
      ([], some ⟨"connection refused"⟩)⟩ ⟨"connection refused"⟩).2.1 rfl rfl⟩

/-! ## The `NotContain` validator -/

/-- The search `hasInfix` finds exactly the contiguous sublists. -/
theorem hasInfix_iff (s sub : List Char) : hasInfix s sub = true ↔ sub <:+: s := by
  induction s with
  | nil =>
    cases sub with
    | nil => simp [hasInfix]
    | cons a t => simp [hasInfix]
  | cons c s ih =>
    simp only [hasInfix, Bool.or_eq_true, List.isPrefixOf_iff_prefix, ih]
    exact List.infix_cons_iff.symm

/-- `Contains s t` holds exactly when the characters of `t` occur consecutively in `s`. -/
theorem Contains_iff (s t : String) :
    Contains s t = true ↔ ∃ a b : List Char, s.data = a ++ t.data ++ b := by
  unfold Contains
  rw [hasInfix_iff]
  constructor
  · rintro ⟨a, b, h⟩
    exact ⟨a, b, h.symm⟩
  · rintro ⟨a, b, h⟩
    exact ⟨a, b, h.symm⟩

/-- C12: for every target `t` and config value, `NotContain(t).ValidateString` adds exactly
one error diagnostic when the value is a known, non-null string that contains `t` as a
substring, and adds none otherwise; a null and an unknown value are never rejected. -/
theorem NotContain_ValidateString_count (t path : String) (v : TfString) :
    ((∃ s, v = .value s ∧ ∃ a b : List Char, s.data = a ++ t.data ++ b) →
      ((NotContain t).ValidateString ⟨path, v⟩).length = 1) ∧
    (¬ (∃ s, v = .value s ∧ ∃ a b : List Char, s.data = a ++ t.data ++ b) →
      (NotContain t).ValidateString ⟨path, v⟩ = []) ∧
    (NotContain t).ValidateString ⟨path, .null⟩ = [] ∧
    (NotContain t).ValidateString ⟨path, .unknown⟩ = [] := by
  refine ⟨?_, ?_, rfl, rfl⟩
  · rintro ⟨s, rfl, hs⟩
    have hc : Contains s t = true := (Contains_iff s t).2 hs
    simp [notContainValidator.ValidateString, NotContain, TfString.IsNull,
      TfString.IsUnknown, TfString.ValueString, hc]
  · intro h
    cases v with
    | null => rfl
    | unknown => rfl
    | value s =>
      have hc : Contains s t = false := by
        cases hcs : Contains s t with
        | false => rfl
        | true => exact absurd ⟨s, rfl, (Contains_iff s t).1 hcs⟩ h
      simp [notContainValidator.ValidateString, NotContain, TfString.IsNull,
        TfString.IsUnknown, TfString.ValueString, hc]

/-- C12 on the cases of `TestContainValidator`: "hello123" against "hello" gives one error,
"goodbye" against "hello" gives none. -/
theorem NotContain_ValidateString_count_witness :
    ((NotContain "hello").ValidateString ⟨"name", .value "hello123"⟩).length = 1 ∧
    (NotContain "hello").ValidateString ⟨"name", .value "goodbye"⟩ = [] :=
  ⟨(NotContain_ValidateString_count "hello" "name" (.value "hello123")).1
      ⟨"hello123", rfl, [], ['1', '2', '3'], by decide⟩,
    by decide⟩

/-- C13: for every target `t`, `NotContain(t).MarkdownDescription` is the text
"Value must not contain the string '" followed by `t` and "'.", it equals
`NotContain(t).Description`, and it is the detail of the error diagnostic `ValidateString`
adds when it rejects a value. -/
theorem NotContain_description (t path s : String) :
    (NotContain t).MarkdownDescription = "Value must not contain the string '" ++ t ++ "'." ∧
    (NotContain t).MarkdownDescription = (NotContain t).Description ∧
    (NotContain t).ValidateString ⟨path, .value s⟩ =
      (if Contains s t then
        [⟨path, "Invalid Value", (NotContain t).MarkdownDescription⟩]
      else []) := by
  refine ⟨rfl, rfl, ?_⟩
  simp [notContainValidator.ValidateString, NotContain, TfString.IsNull,
    TfString.IsUnknown, TfString.ValueString, notContainValidator.MarkdownDescription,
    notContainValidator.Description]

/-! ## Name validators -/

/-- A starred class followed by the end of the pattern matches exactly the texts made of the
class. -/
theorem starLoop_end (cls : Char → Bool) (s : List Char) :
    starLoop cls (fun t => t.isEmpty) s = s.all cls := by
  induction s with
  | nil => simp [starLoop]
  | cons c s ih => simp [starLoop, ih]

/-- A starred class followed by one last class, on a text made of the starred class: the
match succeeds exactly when the last character is in the last class. -/
theorem starLoop_last (cls q : Char → Bool) (s : List Char) (hs : ∀ c ∈ s, cls c = true) :
    starLoop cls (fun t => matchItems [.one q] t) s = true ↔
      ∃ d, s.getLast? = some d ∧ q d = true := by
  induction s with
  | nil => simp [starLoop, matchItems]
  | cons c s ih =>
    have hc : cls c = true := hs c (List.mem_cons_self _ _)
    have hs' : ∀ d ∈ s, cls d = true := fun d hd => hs d (List.mem_cons_of_mem _ hd)
    cases s with
    | nil => simp [starLoop, matchItems]
    | cons d s =>
      have ih' := ih hs'
      simp only [starLoop, matchItems, List.isEmpty_cons, Bool.and_false, Bool.false_or,
        hc, Bool.true_and, List.getLast?_cons_cons] at ih' ⊢
      exact ih'

/-- The last character of a text matched by `^.*[^-_]$` is neither a hyphen nor an
underscore. -/
theorem starLoop_last_class (cls q : Char → Bool) (s : List Char)
    (h : starLoop cls (fun t => matchItems [.one q] t) s = true) :
    ∃ d, s.getLast? = some d ∧ q d = true := by
  induction s with
  | nil => simp [starLoop, matchItems] at h
  | cons c s ih =>
    cases s with
    | nil =>
      simp only [starLoop, matchItems, List.isEmpty_nil, Bool.and_true, Bool.and_false,
        Bool.or_false] at h
      exact ⟨c, rfl, h⟩
    | cons d s =>
      simp only [starLoop, matchItems, List.isEmpty_cons, Bool.and_false, Bool.false_or,
        Bool.and_eq_true] at h
      rw [List.getLast?_cons_cons]
      exact ih (by simpa [starLoop, matchItems] using h.2)

theorem clsLower_imp (c : Char) (h : clsLower c = true) : clsLowerDigitHyphen c = true := by
  simp [clsLowerDigitHyphen, h]

theorem clsLowerDigitHyphen_dot (c : Char) (h : clsLowerDigitHyphen c = true) :
    clsDot c = true := by
  by_cases hn : c = '\n'
  · subst hn
    exact absurd h (by decide)
  · simp [clsDot, hn]

/-- Inside `[a-z0-9-]`, leaving out the hyphen and the underscore leaves `[a-z0-9]`. -/
theorem clsLowerDigit_iff (c : Char) (h : clsLowerDigitHyphen c = true) :
    clsNotHyphenUnderscore c = true ↔ clsLowerDigit c = true := by
  by_cases hh : c = '-'
  · subst hh
    decide
  · by_cases hu : c = '_'
    · subst hu
      exact absurd h (by decide)
    · have : clsLowerDigit c = true := by
        simpa [clsLowerDigitHyphen, clsLowerDigit, hh] using h
      simp [clsNotHyphenUnderscore, hh, hu, this]

theorem utf8Size_of_le (c : Char) (h : c.val.toNat ≤ 127) : c.utf8Size = 1 := by
  have h2 : c.val ≤ UInt32.ofNatCore 0x7F (by decide) := h
  unfold Char.utf8Size
  simp only [h2, if_true]

/-- A character of `[a-z0-9-]` takes one byte. -/
theorem clsLowerDigitHyphen_utf8Size (c : Char) (h : clsLowerDigitHyphen c = true) :
    c.utf8Size = 1 := by
  apply utf8Size_of_le
  simp only [clsLowerDigitHyphen, clsLower, clsDigit, Bool.or_eq_true, Bool.and_eq_true,
    decide_eq_true_eq, beq_iff_eq] at h
  rcases h with (h | h) | h
  · have h1 : c.val.toNat ≤ 122 := h.2
    omega
  · have h1 : c.val.toNat ≤ 57 := h.2
    omega
  · rw [h]; decide

/-- A text made of `[a-z0-9-]` has as many bytes as characters. -/
theorem utf8ByteSize_eq_length (s : String)
    (h : ∀ c ∈ s.data, clsLowerDigitHyphen c = true) : s.utf8ByteSize = s.length := by
  obtain ⟨cs⟩ := s
  show String.utf8ByteSize.go cs = cs.length
  induction cs with
  | nil => rfl
  | cons c cs ih =>
    have hc := clsLowerDigitHyphen_utf8Size c (h c (List.mem_cons_self _ _))
    have := ih (fun d hd => h d (List.mem_cons_of_mem _ hd))
    simp only [String.utf8ByteSize.go, List.length_cons, hc]
    simp only at this
    omega

/-- A text matched by `^[a-z][a-z0-9-]*$` is made of `[a-z0-9-]`. -/
theorem first_regex_all (l : List Char)
    (h : matchItems [.one clsLower, .star clsLowerDigitHyphen] l = true) :
    ∀ x ∈ l, clsLowerDigitHyphen x = true := by
  cases l with
  | nil => simp [matchItems] at h
  | cons c rest =>
    simp only [matchItems, starLoop_end, Bool.and_eq_true] at h
    intro x hx
    rcases List.mem_cons.1 hx with hx | hx
    · rw [hx]; exact clsLower_imp c h.1
    · exact (List.all_eq_true.1 h.2) x hx

/-- C15: a string is accepted by all four validators of `InstanceNameValidator` if and only
if it has between 3 and 30 characters, consists only of lowercase letters, digits and
hyphens, starts with a lowercase letter and ends with a lowercase letter or a digit; and no
accepted string ends with a hyphen or an underscore. -/
theorem InstanceNameValidator_accepts_iff (s : String) :
    ((∀ v ∈ InstanceNameValidator, v.accepts s = true) ↔
      (3 ≤ s.length ∧ s.length ≤ 30 ∧ wellFormedName s = true)) ∧
    ((∀ v ∈ InstanceNameValidator, v.accepts s = true) →
      s.data.getLast? ≠ some '-' ∧ s.data.getLast? ≠ some '_') := by
  have key : (∀ v ∈ InstanceNameValidator, v.accepts s = true) ↔
      (3 ≤ s.length ∧ s.length ≤ 30 ∧
        matchItems [.one clsLower, .star clsLowerDigitHyphen] s.data = true ∧
        matchItems [.star clsDot, .one clsNotHyphenUnderscore] s.data = true) := by
    have keyB : (∀ v ∈ InstanceNameValidator, v.accepts s = true) ↔
        (3 ≤ s.utf8ByteSize ∧ s.utf8ByteSize ≤ 30 ∧
          matchItems [.one clsLower, .star clsLowerDigitHyphen] s.data = true ∧
          matchItems [.star clsDot, .one clsNotHyphenUnderscore] s.data = true) := by
      simp [InstanceNameValidator, StringValidator.accepts]
    rw [keyB]
    constructor
    · rintro ⟨h3, h30, hre, hend⟩
      have hb := utf8ByteSize_eq_length s (first_regex_all s.data hre)
      exact ⟨by omega, by omega, hre, hend⟩
    · rintro ⟨h3, h30, hre, hend⟩
      have hb := utf8ByteSize_eq_length s (first_regex_all s.data hre)
      exact ⟨by omega, by omega, hre, hend⟩
  constructor
  · rw [key]
    constructor
    · rintro ⟨h3, h30, hre, hend⟩
      refine ⟨h3, h30, ?_⟩
      cases hd : s.data with
      | nil => simp [hd, matchItems] at hre
      | cons c rest =>
        rw [hd] at hre hend
        simp only [matchItems, starLoop_end, Bool.and_eq_true] at hre
        have hall : ∀ x ∈ c :: rest, clsLowerDigitHyphen x = true := by
          intro x hx
          rcases List.mem_cons.1 hx with hx | hx
          · rw [hx]; exact clsLower_imp c hre.1
          · exact (List.all_eq_true.1 hre.2) x hx
        obtain ⟨d, hlast, hq⟩ := starLoop_last_class _ _ _
          (by simpa [matchItems] using hend)
        have hdmem : d ∈ c :: rest := List.mem_of_getLast?_eq_some hlast
        have hdl : clsLowerDigit d = true := (clsLowerDigit_iff d (hall d hdmem)).1 hq
        simp only [wellFormedName, hd, List.head?_cons, hlast, Bool.and_eq_true]
        exact ⟨⟨List.all_eq_true.2 hall, hre.1⟩, hdl⟩
    · rintro ⟨h3, h30, hwf⟩
      refine ⟨h3, h30, ?_⟩
      cases hd : s.data with
      | nil => simp [wellFormedName, hd] at hwf
      | cons c rest =>
        simp only [wellFormedName, hd, List.head?_cons, Bool.and_eq_true] at hwf
        obtain ⟨⟨hall, hc⟩, hlast⟩ := hwf
        have hall' : ∀ x ∈ c :: rest, clsLowerDigitHyphen x = true := List.all_eq_true.1 hall
        constructor
        · simp only [matchItems, starLoop_end, Bool.and_eq_true]
          exact ⟨hc, List.all_eq_true.2 fun x hx => hall' x (List.mem_cons_of_mem _ hx)⟩
        · have hdot : ∀ x ∈ c :: rest, clsDot x = true :=
            fun x hx => clsLowerDigitHyphen_dot x (hall' x hx)
          have := (starLoop_last clsDot clsNotHyphenUnderscore (c :: rest) hdot).2
          simp only [matchItems]
          apply this
          cases hl : (c :: rest).getLast? with
          | none => simp [hl] at hlast
          | some d =>
            simp only [hl] at hlast
            have hdmem : d ∈ c :: rest := List.mem_of_getLast?_eq_some hl
            exact ⟨d, rfl, (clsLowerDigit_iff d (hall' d hdmem)).2 hlast⟩
  · intro h
    obtain ⟨_, _, _, hend⟩ := key.1 h
    obtain ⟨d, hlast, hq⟩ := starLoop_last_class _ _ _ (by simpa [matchItems] using hend)
    rw [hlast]
    constructor
    · intro heq
      have hd : d = '-' := Option.some.inj heq
      subst hd
      exact absurd hq (by decide)
    · intro heq
      have hd : d = '_' := Option.some.inj heq
      subst hd
      exact absurd hq (by decide)

/-- The validators of the `name` attribute accept every well-formed name of 3 to 255
characters. -/
theorem nameValidators_accept_from_three (s : String) (h3 : 3 ≤ s.length)
    (h255 : s.length ≤ 255) (hwf : wellFormedName s = true) :
    ∀ v ∈ nameValidators, v.accepts s = true := by
  have hlen : s.length = s.data.length := rfl
  have key : matchItems [.plus clsLower, .plus clsLowerDigitHyphen, .one clsLowerDigit]
      s.data = true := by
    rw [hlen] at h3
    cases hd : s.data with
    | nil => simp [hd] at h3
    | cons c t =>
      cases t with
      | nil => simp [hd] at h3
      | cons m rest =>
        cases rest with
        | nil => simp [hd] at h3
        | cons x rest =>
          simp only [wellFormedName, hd, List.head?_cons, List.getLast?_cons_cons,
            Bool.and_eq_true] at hwf
          obtain ⟨⟨hall, hc⟩, hlast⟩ := hwf
          have hall' : ∀ y ∈ c :: m :: x :: rest, clsLowerDigitHyphen y = true :=
            List.all_eq_true.1 hall
          have hm : clsLowerDigitHyphen m = true := hall' m (by simp)
          have hrest : ∀ y ∈ x :: rest, clsLowerDigitHyphen y = true :=
            fun y hy => hall' y (List.mem_cons_of_mem _ (List.mem_cons_of_mem _ hy))
          have htail : starLoop clsLowerDigitHyphen
              (fun t => matchItems [.one clsLowerDigit] t) (x :: rest) = true := by
            apply (starLoop_last clsLowerDigitHyphen clsLowerDigit (x :: rest) hrest).2
            cases hl : (x :: rest).getLast? with
            | none => simp [hl] at hlast
            | some d => exact ⟨d, rfl, by simpa [hl] using hlast⟩
          have hmid : matchItems [.plus clsLowerDigitHyphen, .one clsLowerDigit]
              (m :: x :: rest) = true := by
            simp only [matchItems, hm, Bool.true_and]
            exact htail
          have hloop : starLoop clsLower
              (fun t => matchItems [.plus clsLowerDigitHyphen, .one clsLowerDigit] t)
              (m :: x :: rest) = true := by
            rw [starLoop, hmid, Bool.true_or]
          simp only [matchItems, hc, Bool.true_and]
          exact hloop
  intro v hv
  simp only [nameValidators, List.mem_cons, List.mem_singleton, List.not_mem_nil,
    or_false] at hv
  have hall : ∀ c ∈ s.data, clsLowerDigitHyphen c = true := by
    simp only [wellFormedName, Bool.and_eq_true] at hwf
    exact List.all_eq_true.1 hwf.1.1
  have hb := utf8ByteSize_eq_length s hall
  rcases hv with rfl | rfl
  · simp only [StringValidator.accepts, Bool.and_eq_true, decide_eq_true_eq]
    omega
  · exact key

/-- C14 fails on the code: the names "a" and "ab" have between 1 and 255 characters, consist
of lowercase letters only, start with a letter and end with a letter, and pass
`LengthBetween(1, 255)`, but the regular expression `^[a-z]+[a-z0-9-]+[a-z0-9]$` of the same
attribute rejects them, since each of its three pieces takes at least one character. -/
theorem nameValidators_reject_short_names :
    wellFormedName "a" = true ∧ 1 ≤ "a".length ∧ "a".length ≤ 255 ∧
    nameValidators.map (fun v => v.accepts "a") = [true, false] ∧
    wellFormedName "ab" = true ∧ 1 ≤ "ab".length ∧ "ab".length ≤ 255 ∧
    nameValidators.map (fun v => v.accepts "ab") = [true, false] ∧
    ¬ (∀ v ∈ nameValidators, v.accepts "a" = true) := by
  decide

/-! ## The poller, one attempt at a time -/

theorem waitLoop_pending (spec : StateChangeConf) (cancelAt : Option Duration)
    (refresh : Nat → Run RefreshResult) (fuel : Nat) (now : Duration) (a : Nat)
    (calls : List ApiCall) (last : Option RefreshResult) (r : RefreshResult)
    (hc : cancelled cancelAt now = false) (ht : now < spec.Timeout)
    (hr : (refresh (a + 1)).outcome = .done r) (he : r.err = none)
    (hnt : r.state ∉ spec.Target) (hp : r.state ∈ spec.Pending) :
    waitLoop spec cancelAt refresh (fuel + 1) now a calls last =
      waitLoop spec cancelAt refresh fuel (sleep cancelAt now spec.MinTimeout) (a + 1)
        (calls ++ (refresh (a + 1)).calls) (some r) := by
  rw [waitLoop]
  simp only [hc, Bool.false_eq_true, if_false, not_le.2 ht, hr, he, hnt, hp, if_true]

theorem waitLoop_target (spec : StateChangeConf) (cancelAt : Option Duration)
    (refresh : Nat → Run RefreshResult) (fuel : Nat) (now : Duration) (a : Nat)
    (calls : List ApiCall) (last : Option RefreshResult) (r : RefreshResult)
    (hc : cancelled cancelAt now = false) (ht : now < spec.Timeout)
    (hr : (refresh (a + 1)).outcome = .done r) (he : r.err = none)
    (htg : r.state ∈ spec.Target) :
    waitLoop spec cancelAt refresh (fuel + 1) now a calls last =
      ⟨calls ++ (refresh (a + 1)).calls, a + 1, now, .success r.result⟩ := by
  rw [waitLoop]
  simp only [hc, Bool.false_eq_true, if_false, not_le.2 ht, hr, he, htg, if_true]

theorem waitLoop_refresh_error (spec : StateChangeConf) (cancelAt : Option Duration)
    (refresh : Nat → Run RefreshResult) (fuel : Nat) (now : Duration) (a : Nat)
    (calls : List ApiCall) (last : Option RefreshResult) (r : RefreshResult) (err : GoError)
    (hc : cancelled cancelAt now = false) (ht : now < spec.Timeout)
    (hr : (refresh (a + 1)).outcome = .done r) (he : r.err = some err) :
    waitLoop spec cancelAt refresh (fuel + 1) now a calls last =
      ⟨calls ++ (refresh (a + 1)).calls, a + 1, now, .failure (.refresh err)⟩ := by
  rw [waitLoop]
  simp only [hc, Bool.false_eq_true, if_false, not_le.2 ht, hr, he]

theorem waitLoop_unexpected (spec : StateChangeConf) (cancelAt : Option Duration)
    (refresh : Nat → Run RefreshResult) (fuel : Nat) (now : Duration) (a : Nat)
    (calls : List ApiCall) (last : Option RefreshResult) (r : RefreshResult)
    (hc : cancelled cancelAt now = false) (ht : now < spec.Timeout)
    (hr : (refresh (a + 1)).outcome = .done r) (he : r.err = none)
    (hnt : r.state ∉ spec.Target) (hnp : r.state ∉ spec.Pending) :
    waitLoop spec cancelAt refresh (fuel + 1) now a calls last =
      ⟨calls ++ (refresh (a + 1)).calls, a + 1, now,
        .failure (.unexpectedState r.state)⟩ := by
  rw [waitLoop]
  simp only [hc, Bool.false_eq_true, if_false, not_le.2 ht, hr, he, hnt, hnp]

theorem cancelled_false_of_lt (cancelAt : Option Duration) (now : Duration)
    (h : ∀ c, cancelAt = some c → now < c) : cancelled cancelAt now = false := by
  cases cancelAt with
  | none => rfl
  | some c =>
    have := h c rfl
    simp only [cancelled, decide_eq_false_iff_not, not_le]
    exact this

theorem sleep_eq_add (cancelAt : Option Duration) (now d : Duration) (hd : 0 ≤ d)
    (h : ∀ c, cancelAt = some c → now + d < c) : sleep cancelAt now d = now + d := by
  have hmax : max d 0 = d := max_eq_left hd
  cases cancelAt with
  | none => simp [sleep, hmax]
  | some c =>
    have hlt : now + d < c := h c rfl
    have hn : ¬ c < now + d := not_lt.2 (le_of_lt hlt)
    simp only [sleep, hmax]
    rw [if_neg hn]

/-- After `n` pending attempts an attempt with an undeclared label ends the loop at that
attempt with the unexpected-state error, provided the deadline and the cancellation signal
lie after the moment of that attempt. -/
theorem waitLoop_unexpected_after (spec : StateChangeConf) (cancelAt : Option Duration)
    (refresh : Nat → Run RefreshResult) (label : String) (hmin : 0 < spec.MinTimeout) :
    ∀ (n fuel : Nat) (now : Duration) (a : Nat) (calls : List ApiCall)
      (last : Option RefreshResult),
      n < fuel →
      (∀ c, cancelAt = some c → now + n * spec.MinTimeout < c) →
      now + n * spec.MinTimeout < spec.Timeout →
      (∀ j, j < n → ∃ r, (refresh (a + 1 + j)).outcome = .done r ∧ r.err = none ∧
        r.state ∈ spec.Pending ∧ r.state ∉ spec.Target) →
      (∃ r, (refresh (a + 1 + n)).outcome = .done r ∧ r.err = none ∧ r.state = label ∧
        label ∉ spec.Pending ∧ label ∉ spec.Target) →
      (waitLoop spec cancelAt refresh fuel now a calls last).attempts = a + n + 1 ∧
      (waitLoop spec cancelAt refresh fuel now a calls last).elapsed =
        now + n * spec.MinTimeout ∧
      (waitLoop spec cancelAt refresh fuel now a calls last).ending =
        .failure (.unexpectedState label) := by
  intro n
  induction n with
  | zero =>
    intro fuel now a calls last hfuel hcancel htime _ hbad
    obtain ⟨f, rfl⟩ : ∃ f, fuel = f + 1 := ⟨fuel - 1, by omega⟩
    obtain ⟨r, hr, he, hl, hnp, hnt⟩ := hbad
    simp only [Nat.cast_zero, zero_mul, add_zero] at hcancel htime hr ⊢
    subst hl
    rw [waitLoop_unexpected spec cancelAt refresh f now a calls last r
      (cancelled_false_of_lt _ _ hcancel) htime hr he hnt hnp]
    exact ⟨rfl, rfl, rfl⟩
  | succ n ih =>
    intro fuel now a calls last hfuel hcancel htime hpend hbad
    obtain ⟨f, rfl⟩ : ∃ f, fuel = f + 1 := ⟨fuel - 1, by omega⟩
    have hf : n < f := by omega
    obtain ⟨r, hr, he, hp, hnt⟩ := hpend 0 (Nat.succ_pos n)
    have hnn : (0 : Int) ≤ (n : Int) * spec.MinTimeout :=
      mul_nonneg (Int.ofNat_nonneg n) (le_of_lt hmin)
    have hexp : ((n + 1 : Nat) : Int) * spec.MinTimeout =
        spec.MinTimeout + (n : Int) * spec.MinTimeout := by
      push_cast
      ring
    have hcancel1 : ∀ c, cancelAt = some c →
        now + spec.MinTimeout + (n : Int) * spec.MinTimeout < c := by
      intro c hcc
      have h1 := hcancel c hcc
      rw [hexp] at h1
      linarith
    have htime1 : now + spec.MinTimeout + (n : Int) * spec.MinTimeout < spec.Timeout := by
      rw [hexp] at htime
      linarith
    have hc0 : cancelled cancelAt now = false :=
      cancelled_false_of_lt _ _ (fun c hcc => by have := hcancel1 c hcc; linarith)
    have hsleep : sleep cancelAt now spec.MinTimeout = now + spec.MinTimeout :=
      sleep_eq_add _ _ _ (le_of_lt hmin) (fun c hcc => by have := hcancel1 c hcc; linarith)
    have hnow : now < spec.Timeout := by linarith
    have hr0 : (refresh (a + 1)).outcome = .done r := by simpa using hr
    rw [waitLoop_pending spec cancelAt refresh f now a calls last r hc0 hnow hr0 he hnt hp,
      hsleep]
    have hpend1 : ∀ j, j < n → ∃ r, (refresh (a + 1 + 1 + j)).outcome = .done r ∧
        r.err = none ∧ r.state ∈ spec.Pending ∧ r.state ∉ spec.Target := by
      intro j hj
      have h1 := hpend (j + 1) (by omega)
      rwa [show a + 1 + (j + 1) = a + 1 + 1 + j by omega] at h1
    have hbad1 : ∃ r, (refresh (a + 1 + 1 + n)).outcome = .done r ∧ r.err = none ∧
        r.state = label ∧ label ∉ spec.Pending ∧ label ∉ spec.Target := by
      rwa [show a + 1 + (n + 1) = a + 1 + 1 + n by omega] at hbad
    obtain ⟨h1, h2, h3⟩ := ih f (now + spec.MinTimeout) (a + 1)
      (calls ++ (refresh (a + 1)).calls) (some r) hf hcancel1 htime1 hpend1 hbad1
    refine ⟨?_, ?_, h3⟩
    · rw [h1]
      omega
    · rw [h2, hexp]
      ring

/-- C18: for every poll specification that keeps the invariants of the data model (pending
and target disjoint, a delay that is not negative, a positive minimum interval) and every
refresh function, if the refresh returns labels in pending on attempts 1 to k-1 and a label
outside pending and target on attempt k, and attempt k takes place (the deadline and any
cancellation lie after its moment), then the wait ends at attempt k with the
unexpected-state error naming that label: the refresh is called exactly k times, the result
is not success, and the wait ends before the timeout. -/
theorem WaitFor_unexpected_state_at_attempt (spec : StateChangeConf)
    (cancelAt : Option Duration) (refresh : Nat → Run RefreshResult) (k fuel : Nat)
    (label : String) (hk : 1 ≤ k) (hfuel : k ≤ fuel)
    (hdelay : 0 ≤ spec.Delay) (hmin : 0 < spec.MinTimeout)
    (hdisj : ∀ l, l ∈ spec.Pending → l ∉ spec.Target)
    (hreach : spec.Delay + ((k - 1 : Nat) : Int) * spec.MinTimeout < spec.Timeout)
    (hcancel : ∀ c, cancelAt = some c →
      spec.Delay + ((k - 1 : Nat) : Int) * spec.MinTimeout < c)
    (hpending : ∀ j, 1 ≤ j → j < k →
      ∃ r, (refresh j).outcome = .done r ∧ r.err = none ∧ r.state ∈ spec.Pending)
    (hbad : ∃ r, (refresh k).outcome = .done r ∧ r.err = none ∧ r.state = label ∧
      label ∉ spec.Pending ∧ label ∉ spec.Target) :
    (WaitFor fuel cancelAt spec refresh).attempts = k ∧
    (WaitFor fuel cancelAt spec refresh).ending = .failure (.unexpectedState label) ∧
    (∀ snapshot, (WaitFor fuel cancelAt spec refresh).ending ≠ .success snapshot) ∧
    (WaitFor fuel cancelAt spec refresh).elapsed =
      spec.Delay + ((k - 1 : Nat) : Int) * spec.MinTimeout ∧
    (WaitFor fuel cancelAt spec refresh).elapsed < spec.Timeout := by
  obtain ⟨n, rfl⟩ : ∃ n, k = n + 1 := ⟨k - 1, by omega⟩
  simp only [Nat.add_sub_cancel] at hreach hcancel ⊢
  have hnn : (0 : Int) ≤ (n : Int) * spec.MinTimeout :=
    mul_nonneg (Int.ofNat_nonneg n) (le_of_lt hmin)
  have hsleep : sleep cancelAt 0 spec.Delay = spec.Delay := by
    rw [sleep_eq_add cancelAt 0 spec.Delay hdelay
      (fun c hcc => by have := hcancel c hcc; linarith)]
    exact zero_add _
  have hpend1 : ∀ j, j < n → ∃ r, (refresh (0 + 1 + j)).outcome = .done r ∧
      r.err = none ∧ r.state ∈ spec.Pending ∧ r.state ∉ spec.Target := by
    intro j hj
    obtain ⟨r, hr, he, hp⟩ := hpending (j + 1) (by omega) (by omega)
    refine ⟨r, ?_, he, hp, hdisj _ hp⟩
    rwa [show 0 + 1 + j = j + 1 by omega]
  have hbad1 : ∃ r, (refresh (0 + 1 + n)).outcome = .done r ∧ r.err = none ∧
      r.state = label ∧ label ∉ spec.Pending ∧ label ∉ spec.Target := by
    rwa [show 0 + 1 + n = n + 1 by omega]
  obtain ⟨h1, h2, h3⟩ := waitLoop_unexpected_after spec cancelAt refresh label hmin n fuel
    spec.Delay 0 [] none (by omega) hcancel hreach hpend1 hbad1
  unfold WaitFor
  rw [hsleep]
  refine ⟨by rw [h1]; omega, h3, ?_, h2, by rw [h2]; exact hreach⟩
  intro snapshot hs
  rw [h3] at hs
  cases hs

/-- C18 at a concrete wait: the drain poll specification with a timeout of 60 seconds and a
refresh that reports "INSVC" twice and then the undeclared label "BROKEN". -/
theorem WaitFor_unexpected_state_at_attempt_witness :
    (WaitFor 5 none (drainStateConf (20 * Second))
      (fun j => ⟨[.GetAutoScalingGroupList],
        .done ⟨.int 0, if j < 3 then "INSVC" else "BROKEN", none⟩⟩)).attempts = 3 ∧
    (WaitFor 5 none (drainStateConf (20 * Second))
      (fun j => ⟨[.GetAutoScalingGroupList],
        .done ⟨.int 0, if j < 3 then "INSVC" else "BROKEN", none⟩⟩)).ending =
      .failure (.unexpectedState "BROKEN") :=
  have h := WaitFor_unexpected_state_at_attempt (drainStateConf (20 * Second)) none
    (fun j => ⟨[.GetAutoScalingGroupList],
      .done ⟨.int 0, if j < 3 then "INSVC" else "BROKEN", none⟩⟩) 3 5 "BROKEN"
    (by decide) (by decide) (by decide) (by decide)
    (by intro l hl; simp [drainStateConf] at hl ⊢; rw [hl]; decide)
    (by decide) (by intro c hc; cases hc)
    (by
      intro j h1 h3
      refine ⟨⟨.int 0, "INSVC", none⟩, ?_, rfl, by simp [drainStateConf]⟩
      simp [h3])
    ⟨⟨.int 0, "BROKEN", none⟩, by simp, rfl, rfl, by decide, by decide⟩
  ⟨h.1, h.2.1⟩

/-! ## Labels of the three refresh steps -/

theorem capacityRefresh_label_mem (wait : Duration) (p : CapacityPoll) (r : RefreshResult)
    (hr : (capacityRefresh p).outcome = .done r) (he : r.err = none) :
    r.state ∈ (capacityStateConf wait).Pending ∨ r.state ∈ (capacityStateConf wait).Target := by
  unfold capacityRefresh at hr
  split at hr
  · cases hr; cases he
  · simp only at hr
    split at hr
    · cases hr; cases he
    · split at hr
      · cases hr
      · split at hr
        · cases hr
        · split at hr
          · cases hr
          · split at hr
            · cases hr; simp [capacityStateConf]
            · cases hr; simp [capacityStateConf]

theorem drainRefresh_label_mem (DefaultStopTimeout : Duration)
    (api : Option GetAutoScalingGroupListResponse × Option GoError) (r : RefreshResult)
    (hr : (drainRefresh api).outcome = .done r) (he : r.err = none) :
    r.state ∈ (drainStateConf DefaultStopTimeout).Pending ∨
      r.state ∈ (drainStateConf DefaultStopTimeout).Target := by
  simp only [drainRefresh, drainLabel] at hr
  split at hr
  · cases hr; cases he
  · split at hr
    · cases hr
    · split at hr
      · cases hr; simp [drainStateConf]
      · cases hr; simp [drainStateConf]

theorem deletionRefresh_label_mem (DefaultTimeout : Duration) (code : String)
    (getBody : GoError → Option CommonError × Option GoError)
    (del : Option DeleteAutoScalingGroupResponse × Option GoError) (r : RefreshResult)
    (hr : (deletionRefresh code getBody del).outcome = .done r) (he : r.err = none) :
    r.state ∈ (deletionStateConf DefaultTimeout).Pending ∨
      r.state ∈ (deletionStateConf DefaultTimeout).Target := by
  simp only [deletionRefresh] at hr
  split at hr
  · split at hr
    · cases hr
    · split at hr
      · cases hr; simp [deletionStateConf]
      · cases hr; cases he
  · cases hr; simp [deletionStateConf]

/-- A refresh whose labels are all declared never drives the poller to the unexpected-state
error. -/
theorem waitLoop_never_unexpected (spec : StateChangeConf) (cancelAt : Option Duration)
    (refresh : Nat → Run RefreshResult)
    (h : ∀ k r, (refresh k).outcome = .done r → r.err = none →
      r.state ∈ spec.Pending ∨ r.state ∈ spec.Target) (label : String) :
    ∀ (fuel : Nat) (now : Duration) (a : Nat) (calls : List ApiCall)
      (last : Option RefreshResult),
      (waitLoop spec cancelAt refresh fuel now a calls last).ending ≠
        .failure (.unexpectedState label) := by
  intro fuel
  induction fuel with
  | zero =>
    intro now a calls last hx
    simp [waitLoop] at hx
  | succ f ih =>
    intro now a calls last
    rw [waitLoop]
    split
    · intro hx; cases hx
    · split
      · intro hx; cases hx
      · split
        · intro hx; cases hx
        · rename_i r hr
          split
          · intro hx; cases hx
          · rename_i he
            split
            · intro hx; cases hx
            · split
              · exact ih _ _ _ _
              · rename_i hnt hnp
                rcases h (a + 1) r hr he with hp | ht
                · exact absurd hp hnp
                · exact absurd ht hnt

/-- The three waits never end with the unexpected-state error, whatever the remote calls
return. -/
theorem waits_never_unexpected (fuel : Nat) (cancelAt : Option Duration)
    (wait DefaultStopTimeout DefaultTimeout : Duration) (id code label : String)
    (getBody : GoError → Option CommonError × Option GoError)
    (polls : Nat → CapacityPoll)
    (lists : Nat → Option GetAutoScalingGroupListResponse × Option GoError)
    (deletes : Nat → Option DeleteAutoScalingGroupResponse × Option GoError) :
    (waitForAutoScalingGroupCapacity fuel cancelAt wait polls).run.ending ≠
      .failure (.unexpectedState label) ∧
    (waitForInAutoScalingGroupServerInstanceListDeletion fuel cancelAt DefaultStopTimeout id
      lists).run.ending ≠ .failure (.unexpectedState label) ∧
    (waitForAutoScalingGroupDeletion fuel cancelAt code getBody DefaultTimeout id
      deletes).run.ending ≠ .failure (.unexpectedState label) :=
  ⟨waitLoop_never_unexpected _ cancelAt _
      (fun k r hr he => capacityRefresh_label_mem wait (polls k) r hr he) label fuel _ 0 []
      none,
    waitLoop_never_unexpected _ cancelAt _
      (fun k r hr he => drainRefresh_label_mem DefaultStopTimeout (lists k) r hr he) label
      fuel _ 0 [] none,
    waitLoop_never_unexpected _ cancelAt _
      (fun k r hr he => deletionRefresh_label_mem DefaultTimeout code getBody (deletes k) r
        hr he) label fuel _ 0 [] none⟩

/-- C19: for each of the three refresh steps (capacity, dependent-drain,
delete-until-accepted) and every input, whenever the refresh returns with a nil error, its
label is a member of the pending set or of the target set its recipe declares. -/
theorem refresh_label_declared (wait DefaultStopTimeout DefaultTimeout : Duration)
    (p : CapacityPoll) (api : Option GetAutoScalingGroupListResponse × Option GoError)
    (code : String) (getBody : GoError → Option CommonError × Option GoError)
    (del : Option DeleteAutoScalingGroupResponse × Option GoError) :
    (∀ r, (capacityRefresh p).outcome = .done r → r.err = none →
      r.state ∈ (capacityStateConf wait).Pending ∨
      r.state ∈ (capacityStateConf wait).Target) ∧
    (∀ r, (drainRefresh api).outcome = .done r → r.err = none →
      r.state ∈ (drainStateConf DefaultStopTimeout).Pending ∨
      r.state ∈ (drainStateConf DefaultStopTimeout).Target) ∧
    (∀ r, (deletionRefresh code getBody del).outcome = .done r → r.err = none →
      r.state ∈ (deletionStateConf DefaultTimeout).Pending ∨
      r.state ∈ (deletionStateConf DefaultTimeout).Target) :=
  ⟨fun r hr he => capacityRefresh_label_mem wait p r hr he,
    fun r hr he => drainRefresh_label_mem DefaultStopTimeout api r hr he,
    fun r hr he => deletionRefresh_label_mem DefaultTimeout code getBody del r hr he⟩

/-- C19 at three concrete polls, one for each refresh step. -/
theorem refresh_label_declared_witness :
    ("ready" ∈ (capacityStateConf (600 * Second)).Pending ∨
      "ready" ∈ (capacityStateConf (600 * Second)).Target) ∧
    ("TERMT" ∈ (drainStateConf (600 * Second)).Pending ∨
      "TERMT" ∈ (drainStateConf (600 * Second)).Target) ∧
    ("RUN" ∈ (deletionStateConf (600 * Second)).Pending ∨
      "RUN" ∈ (deletionStateConf (600 * Second)).Target) :=
  have h := refresh_label_declared (600 * Second) (600 * Second) (600 * Second)
    ⟨(some ⟨some "7", some 0, none, []⟩, none), ([], none)⟩
    (some ⟨[some ⟨some "7", some 0, none, []⟩]⟩, none)
    "IN_USE" (fun e => (some ⟨e.text, ""⟩, none)) (none, some ⟨"IN_USE"⟩)
  ⟨h.1 ⟨.group (some ⟨some "7", some 0, none, []⟩), "ready", none⟩ (by decide) rfl,
    h.2.1 ⟨.group (some ⟨some "7", some 0, none, []⟩), "TERMT", none⟩ (by decide) rfl,
    h.2.2 ⟨.deleteResponse none, "RUN", none⟩ (by decide) rfl⟩

/-! ## The absent group in the drain refresh -/

/-- C20 fails on the code: `GetAutoScalingGroup` reports an absent group as `(nil, nil)` for
a nil response and for an empty group list, and the refresh step of
`waitForInAutoScalingGroupServerInstanceListDeletion` then reads
`asg.InAutoScalingGroupServerInstanceList` through the nil pointer: it neither returns a
label nor an error. -/
theorem drainRefresh_absent_group_panics :
    GetAutoScalingGroup (none, none) = (none, none) ∧
    GetAutoScalingGroup (some ⟨[]⟩, none) = (none, none) ∧
    drainRefresh (none, none) = ⟨[.GetAutoScalingGroupList], .nilPanic⟩ ∧
    drainRefresh (some ⟨[]⟩, none) = ⟨[.GetAutoScalingGroupList], .nilPanic⟩ ∧
    ¬ ∃ r, (drainRefresh (some ⟨[]⟩, none)).outcome = .done r := by
  refine ⟨rfl, rfl, rfl, rfl, ?_⟩
  rintro ⟨r, hr⟩
  cases hr

/-! ## The waits driven through the poller -/

/-- C16: driving the refresh step of `waitForAutoScalingGroupDeletion` through the poller,
with no cancellation: if the delete call fails with the in-use code on attempts 1 and 2 and
succeeds on attempt 3 (and the timeout is beyond the 8 seconds this takes), the wait
returns nil after exactly three delete calls; if the delete call fails with another code on
attempt 1, the wait returns an error that wraps that failure after exactly one delete
call. -/
theorem waitForAutoScalingGroupDeletion_through_poller (code : String)
    (getBody : GoError → Option CommonError × Option GoError) (DefaultTimeout : Duration)
    (id : String) (deletes : Nat → Option DeleteAutoScalingGroupResponse × Option GoError)
    (fuel : Nat) :
    (3 ≤ fuel → 8 * Second < DefaultTimeout →
      (∀ k, k = 1 ∨ k = 2 →
        ∃ e b, (deletes k).2 = some e ∧ (getBody e).1 = some b ∧ b.ReturnCode = code) →
      (deletes 3).2 = none →
      (waitForAutoScalingGroupDeletion fuel none code getBody DefaultTimeout id
          deletes).result = .value none ∧
      (waitForAutoScalingGroupDeletion fuel none code getBody DefaultTimeout id
          deletes).run =
        ⟨[.DeleteAutoScalingGroup, .DeleteAutoScalingGroup, .DeleteAutoScalingGroup], 3,
          8 * Second, .success (.deleteResponse (deletes 3).1)⟩) ∧
    (1 ≤ fuel → 2 * Second < DefaultTimeout →
      ∀ e b, (deletes 1).2 = some e → (getBody e).1 = some b → b.ReturnCode ≠ code →
        (waitForAutoScalingGroupDeletion fuel none code getBody DefaultTimeout id
            deletes).result =
          .value (some ⟨"Error waiting for AutoScalingGroup (%s) to become deleting: %s",
            [id], .refresh e⟩) ∧
        (waitForAutoScalingGroupDeletion fuel none code getBody DefaultTimeout id
            deletes).run =
          ⟨[.DeleteAutoScalingGroup], 1, 2 * Second, .failure (.refresh e)⟩) := by
  have hs0 : sleep none 0 (deletionStateConf DefaultTimeout).Delay = 2 * Second := by
    simp [sleep, deletionStateConf, Second]
  have hs1 : sleep none (2 * Second) (deletionStateConf DefaultTimeout).MinTimeout =
      5 * Second := by
    simp [sleep, deletionStateConf, Second]
  have hs2 : sleep none (5 * Second) (deletionStateConf DefaultTimeout).MinTimeout =
      8 * Second := by
    simp [sleep, deletionStateConf, Second]
  have hT : (deletionStateConf DefaultTimeout).Timeout = DefaultTimeout := rfl
  constructor
  · intro hfuel ht hbenign hok
    obtain ⟨f, rfl⟩ : ∃ f, fuel = f + 1 + 1 + 1 := ⟨fuel - 3, by omega⟩
    obtain ⟨e1, b1, hd1, hb1, hc1⟩ := hbenign 1 (Or.inl rfl)
    obtain ⟨e2, b2, hd2, hb2, hc2⟩ := hbenign 2 (Or.inr rfl)
    have hr1 : deletionRefresh code getBody (deletes 1) =
        ⟨[.DeleteAutoScalingGroup], .done ⟨.deleteResponse (deletes 1).1, "RUN", none⟩⟩ := by
      simp [deletionRefresh, hd1, hb1, hc1]
    have hr2 : deletionRefresh code getBody (deletes 2) =
        ⟨[.DeleteAutoScalingGroup], .done ⟨.deleteResponse (deletes 2).1, "RUN", none⟩⟩ := by
      simp [deletionRefresh, hd2, hb2, hc2]
    have hr3 : deletionRefresh code getBody (deletes 3) =
        ⟨[.DeleteAutoScalingGroup],
          .done ⟨.deleteResponse (deletes 3).1, "DELETE", none⟩⟩ := by
      simp [deletionRefresh, hok]
    have hsec : (0 : Int) < Second := by decide
    have hrun : WaitFor (f + 1 + 1 + 1) none (deletionStateConf DefaultTimeout)
        (fun k => deletionRefresh code getBody (deletes k)) =
        ⟨[.DeleteAutoScalingGroup, .DeleteAutoScalingGroup, .DeleteAutoScalingGroup], 3,
          8 * Second, .success (.deleteResponse (deletes 3).1)⟩ := by
      unfold WaitFor
      rw [hs0]
      rw [waitLoop_pending (deletionStateConf DefaultTimeout) none
        (fun k => deletionRefresh code getBody (deletes k)) (f + 1 + 1) (2 * Second) 0 []
        none ⟨.deleteResponse (deletes 1).1, "RUN", none⟩ rfl (by rw [hT]; linarith)
        (by simp [hr1]) rfl (by simp [deletionStateConf]) (by simp [deletionStateConf]), hs1]
      rw [waitLoop_pending (deletionStateConf DefaultTimeout) none
        (fun k => deletionRefresh code getBody (deletes k)) (f + 1) (5 * Second) 1 _ _
        ⟨.deleteResponse (deletes 2).1, "RUN", none⟩ rfl (by rw [hT]; linarith)
        (by simp [hr2]) rfl (by simp [deletionStateConf]) (by simp [deletionStateConf]), hs2]
      rw [waitLoop_target (deletionStateConf DefaultTimeout) none
        (fun k => deletionRefresh code getBody (deletes k)) f (8 * Second) 2 _ _
        ⟨.deleteResponse (deletes 3).1, "DELETE", none⟩ rfl (by rw [hT]; linarith)
        (by simp [hr3]) rfl (by simp [deletionStateConf])]
      simp [hr1, hr2, hr3]
    simp only [waitForAutoScalingGroupDeletion, hrun, wrapWaitError, and_self]
  · intro hfuel ht e b hd hb hc
    obtain ⟨f, rfl⟩ : ∃ f, fuel = f + 1 := ⟨fuel - 1, by omega⟩
    have hr1 : deletionRefresh code getBody (deletes 1) =
        ⟨[.DeleteAutoScalingGroup], .done ⟨.int 0, "", some e⟩⟩ := by
      simp [deletionRefresh, hd, hb, hc]
    have hrun : WaitFor (f + 1) none (deletionStateConf DefaultTimeout)
        (fun k => deletionRefresh code getBody (deletes k)) =
        ⟨[.DeleteAutoScalingGroup], 1, 2 * Second, .failure (.refresh e)⟩ := by
      unfold WaitFor
      rw [hs0]
      rw [waitLoop_refresh_error (deletionStateConf DefaultTimeout) none
        (fun k => deletionRefresh code getBody (deletes k)) f (2 * Second) 0 [] none
        ⟨.int 0, "", some e⟩ e rfl (by rw [hT]; exact ht) (by simp [hr1]) rfl]
      simp [hr1]
    simp only [waitForAutoScalingGroupDeletion, hrun, wrapWaitError, and_self]

/-- C16 at two concrete scripts of the delete call, with a timeout of 60 seconds: two in-use
failures followed by success, and a failure with another code. -/
theorem waitForAutoScalingGroupDeletion_through_poller_witness :
    (waitForAutoScalingGroupDeletion 5 none "IN_USE" (fun e => (some ⟨e.text, ""⟩, none))
        (60 * Second) "9"
        (fun k => if k < 3 then (none, some ⟨"IN_USE"⟩) else (none, none))).result =
      .value none ∧
    (waitForAutoScalingGroupDeletion 5 none "IN_USE" (fun e => (some ⟨e.text, ""⟩, none))
        (60 * Second) "9"
        (fun k => if k < 3 then (none, some ⟨"IN_USE"⟩) else (none, none))).run =
      ⟨[.DeleteAutoScalingGroup, .DeleteAutoScalingGroup, .DeleteAutoScalingGroup], 3,
        8 * Second, .success (.deleteResponse none)⟩ ∧
    (waitForAutoScalingGroupDeletion 5 none "IN_USE" (fun e => (some ⟨e.text, ""⟩, none))
        (60 * Second) "9" (fun _ => (none, some ⟨"LIMIT_EXCEEDED"⟩))).result =
      .value (some ⟨"Error waiting for AutoScalingGroup (%s) to become deleting: %s",
        ["9"], .refresh ⟨"LIMIT_EXCEEDED"⟩⟩) :=
  have h1 := (waitForAutoScalingGroupDeletion_through_poller "IN_USE"
    (fun e => (some ⟨e.text, ""⟩, none)) (60 * Second) "9"
    (fun k => if k < 3 then (none, some ⟨"IN_USE"⟩) else (none, none)) 5).1
    (by decide) (by decide)
    (by
      intro k hk
      rcases hk with rfl | rfl
      · exact ⟨⟨"IN_USE"⟩, ⟨"IN_USE", ""⟩, rfl, rfl, rfl⟩
      · exact ⟨⟨"IN_USE"⟩, ⟨"IN_USE", ""⟩, rfl, rfl, rfl⟩)
    rfl
  have h2 := (waitForAutoScalingGroupDeletion_through_poller "IN_USE"
    (fun e => (some ⟨e.text, ""⟩, none)) (60 * Second) "9"
    (fun _ => (none, some ⟨"LIMIT_EXCEEDED"⟩)) 5).2
    (by decide) (by decide) ⟨"LIMIT_EXCEEDED"⟩ ⟨"LIMIT_EXCEEDED", ""⟩ rfl rfl (by decide)
  ⟨h1.1, h1.2, h2.1⟩

/-- C17: for the capacity wait with minSize 2, desiredCapacity unset, healthy in-service
member counts 0, 1 and 2 on three successive polls, an initial delay of 2 seconds, a minimum
interval of 3 seconds and a timeout of 10 seconds, with no cancellation: the wait succeeds
on the third poll at the elapsed time 2 + 3 + 3 = 8 seconds, before the deadline, and
returns the group with no error, so it does not time out. -/
theorem waitForAutoScalingGroupCapacity_three_polls (g : AutoScalingGroup)
    (ms : Nat → List InAutoScalingGroupServerInstance) (polls : Nat → CapacityPoll)
    (fuel : Nat) (hfuel : 3 ≤ fuel)
    (hmin : g.MinSize = some 2) (hdesired : g.DesiredCapacity = none)
    (hpolls : ∀ k, 1 ≤ k → k ≤ 3 → polls k = ⟨(some g, none), (ms k, none)⟩)
    (hset : ∀ k, 1 ≤ k → k ≤ 3 →
      ∀ m ∈ ms k, m.HealthStatus ≠ none ∧ m.LifecycleState ≠ none)
    (hlen : ∀ k, 1 ≤ k → k ≤ 3 → (ms k).length < 2 ^ 31)
    (h1 : healthyCount (ms 1) = 0) (h2 : healthyCount (ms 2) = 1)
    (h3 : healthyCount (ms 3) = 2) :
    (capacityStateConf (10 * Second)).Delay = 2 * Second ∧
    (capacityStateConf (10 * Second)).MinTimeout = 3 * Second ∧
    (waitForAutoScalingGroupCapacity fuel none (10 * Second) polls).run.attempts = 3 ∧
    (waitForAutoScalingGroupCapacity fuel none (10 * Second) polls).run.elapsed =
      2 * Second + 3 * Second + 3 * Second ∧
    (waitForAutoScalingGroupCapacity fuel none (10 * Second) polls).run.elapsed =
      8 * Second ∧
    (waitForAutoScalingGroupCapacity fuel none (10 * Second) polls).run.elapsed <
      (capacityStateConf (10 * Second)).Timeout ∧
    (waitForAutoScalingGroupCapacity fuel none (10 * Second) polls).run.ending =
      .success (.group (some g)) ∧
    (waitForAutoScalingGroupCapacity fuel none (10 * Second) polls).result =
      .value (some g, none) := by
  obtain ⟨f, rfl⟩ : ∃ f, fuel = f + 1 + 1 + 1 := ⟨fuel - 3, by omega⟩
  have htarget : minASG g = some 2 := by simp [minASG, hdesired, hmin]
  have hr1 : (capacityRefresh (polls 1)).outcome =
      .done ⟨.group (some g), "waiting", none⟩ := by
    rw [hpolls 1 (by decide) (by decide), capacityRefresh_loaded g (ms 1) 2
      (hset 1 (by decide) (by decide)) (hlen 1 (by decide) (by decide)) htarget, h1]
    rfl
  have hr2 : (capacityRefresh (polls 2)).outcome =
      .done ⟨.group (some g), "waiting", none⟩ := by
    rw [hpolls 2 (by decide) (by decide), capacityRefresh_loaded g (ms 2) 2
      (hset 2 (by decide) (by decide)) (hlen 2 (by decide) (by decide)) htarget, h2]
    rfl
  have hr3 : (capacityRefresh (polls 3)).outcome =
      .done ⟨.group (some g), "ready", none⟩ := by
    rw [hpolls 3 (by decide) (by decide), capacityRefresh_loaded g (ms 3) 2
      (hset 3 (by decide) (by decide)) (hlen 3 (by decide) (by decide)) htarget, h3]
    rfl
  have hs0 : sleep none 0 (capacityStateConf (10 * Second)).Delay = 2 * Second := by
    simp [sleep, capacityStateConf, Second]
  have hs1 : sleep none (2 * Second) (capacityStateConf (10 * Second)).MinTimeout =
      5 * Second := by
    simp [sleep, capacityStateConf, Second]
  have hs2 : sleep none (5 * Second) (capacityStateConf (10 * Second)).MinTimeout =
      8 * Second := by
    simp [sleep, capacityStateConf, Second]
  have hrun : ∃ calls, WaitFor (f + 1 + 1 + 1) none (capacityStateConf (10 * Second))
      (fun k => capacityRefresh (polls k)) =
      ⟨calls, 3, 8 * Second, .success (.group (some g))⟩ := by
    unfold WaitFor
    rw [hs0]
    rw [waitLoop_pending (capacityStateConf (10 * Second)) none
      (fun k => capacityRefresh (polls k)) (f + 1 + 1) (2 * Second) 0 [] none
      ⟨.group (some g), "waiting", none⟩ rfl (by decide) hr1 rfl
      (by simp [capacityStateConf]) (by simp [capacityStateConf]), hs1]
    rw [waitLoop_pending (capacityStateConf (10 * Second)) none
      (fun k => capacityRefresh (polls k)) (f + 1) (5 * Second) 1 _ _
      ⟨.group (some g), "waiting", none⟩ rfl (by decide) hr2 rfl
      (by simp [capacityStateConf]) (by simp [capacityStateConf]), hs2]
    rw [waitLoop_target (capacityStateConf (10 * Second)) none
      (fun k => capacityRefresh (polls k)) f (8 * Second) 2 _ _
      ⟨.group (some g), "ready", none⟩ rfl (by decide) hr3 rfl
      (by simp [capacityStateConf])]
    exact ⟨_, rfl⟩
  obtain ⟨calls, hrun⟩ := hrun
  have hw : waitForAutoScalingGroupCapacity (f + 1 + 1 + 1) none (10 * Second) polls =
      ⟨⟨calls, 3, 8 * Second, .success (.group (some g))⟩, .value (some g, none)⟩ := by
    simp only [waitForAutoScalingGroupCapacity, hrun]
  have hsum : (8 * Second : Duration) = 2 * Second + 3 * Second + 3 * Second := by decide
  have hbefore : (8 * Second : Duration) < (capacityStateConf (10 * Second)).Timeout := by
    decide
  rw [hw]
  exact ⟨rfl, rfl, rfl, hsum, rfl, hbefore, rfl, rfl⟩

/-- C17 at concrete polls: no member, then one and then two healthy in-service members. -/
theorem waitForAutoScalingGroupCapacity_three_polls_witness :
    (waitForAutoScalingGroupCapacity 3 none (10 * Second)
      (fun k => ⟨(some ⟨some "7", some 2, none, []⟩, none),
        (List.replicate (k - 1) ⟨none, some "HLTHY", some "INSVC"⟩, none)⟩)).run.elapsed =
      8 * Second ∧
    (waitForAutoScalingGroupCapacity 3 none (10 * Second)
      (fun k => ⟨(some ⟨some "7", some 2, none, []⟩, none),
        (List.replicate (k - 1) ⟨none, some "HLTHY", some "INSVC"⟩, none)⟩)).result =
      .value (some ⟨some "7", some 2, none, []⟩, none) :=
  have h := waitForAutoScalingGroupCapacity_three_polls ⟨some "7", some 2, none, []⟩
    (fun k => List.replicate (k - 1) ⟨none, some "HLTHY", some "INSVC"⟩)
    (fun k => ⟨(some ⟨some "7", some 2, none, []⟩, none),
      (List.replicate (k - 1) ⟨none, some "HLTHY", some "INSVC"⟩, none)⟩)
    3 (le_refl 3) rfl rfl (fun _ _ _ => rfl)
    (by
      intro k _ _ m hm
      rw [List.eq_of_mem_replicate hm]
      exact ⟨by simp, by simp⟩)
    (by
      intro k _ hk
      rw [List.length_replicate]
      exact lt_of_le_of_lt (le_trans (Nat.sub_le k 1) hk) (by decide))
    (by decide) (by decide) (by decide)
  ⟨h.2.2.2.2.1, h.2.2.2.2.2.2.2⟩

/-! ## `reverseAndExcludeFirst` -/

/-- Swapping the two ends of the middle part of a list. -/
theorem swapAt_ends {α : Type} (A M B : List α) (x y : α) :
    swapAt (A ++ (x :: (M ++ [y])) ++ B) A.length (A.length + (M.length + 1)) =
      (A ++ [y]) ++ M ++ ([x] ++ B) := by
  have hi : (A ++ (x :: (M ++ [y])) ++ B)[A.length]? = some x := by
    rw [List.append_assoc, List.getElem?_append_right (le_refl _), Nat.sub_self]
    simp
  have hj : (A ++ (x :: (M ++ [y])) ++ B)[A.length + (M.length + 1)]? = some y := by
    rw [List.append_assoc, List.getElem?_append_right (by omega),
      Nat.add_sub_cancel_left, List.cons_append, List.getElem?_cons_succ,
      List.append_assoc, List.getElem?_append_right (le_refl _), Nat.sub_self]
    simp
  simp only [swapAt, hi, hj]
  rw [List.append_assoc, List.set_append_right _ _ (le_refl _)]
  simp only [Nat.sub_self, List.cons_append, List.set_cons_zero]
  rw [List.set_append_right _ _ (by omega)]
  simp only [Nat.add_sub_cancel_left, List.set_cons_succ]
  rw [List.append_assoc M, List.set_append_right _ _ (le_refl _)]
  simp

/-- The swap loop run on the middle part `M` of a list, between a prefix `A` and a suffix
`B`, reverses `M` and leaves `A` and `B` alone, given as many steps as `M` has elements. -/
theorem swapLoop_reverses {α : Type} :
    ∀ (fuel : Nat) (A M B : List α), M.length ≤ fuel →
      swapLoop fuel (A ++ M ++ B) A.length (A.length + M.length - 1) =
        A ++ M.reverse ++ B := by
  intro fuel
  induction fuel with
  | zero =>
    intro A M B h
    have hM : M = [] := List.length_eq_zero.1 (Nat.le_zero.1 h)
    subst hM
    simp [swapLoop]
  | succ f ih =>
    intro A M B h
    cases M with
    | nil =>
      rw [swapLoop, if_neg (by simp)]
      simp
    | cons x M1 =>
      rcases List.eq_nil_or_concat M1 with rfl | ⟨M2, y, rfl⟩
      · rw [swapLoop, if_neg (by simp)]
        simp
      · rw [List.concat_eq_append] at h ⊢
        have hlen : (x :: (M2 ++ [y])).length = M2.length + 2 := by simp
        have hj : A.length + (x :: (M2 ++ [y])).length - 1 = A.length + (M2.length + 1) := by
          rw [hlen]; omega
        rw [swapLoop, hj, if_pos (by omega), swapAt_ends]
        have hA : (A ++ [y]).length = A.length + 1 := by simp
        have hj2 : A.length + (M2.length + 1) - 1 = (A ++ [y]).length + M2.length - 1 := by
          rw [hA]; omega
        rw [← hA, hj2, ih (A ++ [y]) M2 ([x] ++ B) (by rw [hlen] at h; omega)]
        simp

/-- On two users or more, `reverseAndExcludeFirst` is the reverse without its first
element. -/
theorem reverseAndExcludeFirst_long (users : List (Option CloudMysqlUser))
    (h : 2 ≤ users.length) : reverseAndExcludeFirst users = users.dropLast.reverse := by
  have hrev : swapLoop users.length users 0 (users.length - 1) = users.reverse := by
    have := swapLoop_reverses users.length [] users [] (le_refl _)
    simpa using this
  rw [reverseAndExcludeFirst, if_neg (by omega), hrev, List.drop_one, List.tail_reverse]

/-- C21: for every list of users of length n ≥ 2, `reverseAndExcludeFirst` returns a list of
length n − 1, equal to the reverse of the input with the input's last element removed:
element i of the result is element n − 2 − i of the input; a list of length 0 or 1 is
returned unchanged, so a single user is not excluded. -/
theorem reverseAndExcludeFirst_spec (users : List (Option CloudMysqlUser)) :
    (2 ≤ users.length →
      (reverseAndExcludeFirst users).length = users.length - 1 ∧
      reverseAndExcludeFirst users = users.dropLast.reverse ∧
      ∀ i, i < users.length - 1 →
        (reverseAndExcludeFirst users)[i]? = users[users.length - 2 - i]?) ∧
    (users.length ≤ 1 → reverseAndExcludeFirst users = users) := by
  constructor
  · intro h
    have heq := reverseAndExcludeFirst_long users h
    refine ⟨by rw [heq]; simp, heq, ?_⟩
    intro i hi
    rw [heq, List.getElem?_reverse (by simpa using hi), List.getElem?_dropLast,
      List.length_dropLast, if_pos (by omega)]
    congr 1
  · intro h
    rw [reverseAndExcludeFirst, if_pos h]

/-- C21 at concrete lists: three users lose the last one and come back reversed; a single
user is kept. -/
theorem reverseAndExcludeFirst_spec_witness :
    reverseAndExcludeFirst [some ⟨some "a", none, none⟩, some ⟨some "b", none, none⟩,
        some ⟨some "c", none, none⟩] =
      [some ⟨some "a", none, none⟩, some ⟨some "b", none, none⟩,
        some ⟨some "c", none, none⟩].dropLast.reverse ∧
    reverseAndExcludeFirst [some ⟨some "a", none, none⟩, some ⟨some "b", none, none⟩,
        some ⟨some "c", none, none⟩] =
      [some ⟨some "b", none, none⟩, some ⟨some "a", none, none⟩] ∧
    reverseAndExcludeFirst [some ⟨some "a", none, none⟩] = [some ⟨some "a", none, none⟩] :=
  ⟨((reverseAndExcludeFirst_spec [some ⟨some "a", none, none⟩, some ⟨some "b", none, none⟩,
      some ⟨some "c", none, none⟩]).1 (by decide)).2.1,
    by decide,
    (reverseAndExcludeFirst_spec [some ⟨some "a", none, none⟩]).2 (by decide)⟩

/-! ## `GetMysqlUserAllList` -/

theorem usersOfPages_succ
    (api : GetCloudMysqlUserListRequest →
      Option GetCloudMysqlUserListResponse × Option GoError) :
    ∀ (n p : Nat), usersOfPages api p (n + 1) =
      usersOfPages api p n ++ pageUsers (api ⟨((p + n : Nat) : Int), 100⟩) := by
  intro n
  induction n with
  | zero => intro p; simp [usersOfPages]
  | succ n ih =>
    intro p
    rw [usersOfPages, ih (p + 1), usersOfPages, List.append_assoc,
      show p + 1 + n = p + (n + 1) by omega]

theorem pageRequests_succ :
    ∀ (n p : Nat), pageRequests p (n + 1) =
      pageRequests p n ++ [⟨((p + n : Nat) : Int), 100⟩] := by
  intro n
  induction n with
  | zero => intro p; simp [pageRequests]
  | succ n ih =>
    intro p
    rw [pageRequests, ih (p + 1), pageRequests, List.cons_append,
      show p + 1 + n = p + (n + 1) by omega]

/-- The page requests are those for the page numbers from `p` on, in increasing order. -/
theorem pageRequests_eq_map :
    ∀ (n p : Nat), pageRequests p n =
      (List.range' p n).map (fun (k : Nat) => (⟨(k : Int), 100⟩ : GetCloudMysqlUserListRequest)) := by
  intro n
  induction n with
  | zero => intro p; simp [pageRequests]
  | succ n ih =>
    intro p
    rw [pageRequests, ih (p + 1), List.range'_succ, List.map_cons]

/-- While the pages are full and do not fail, the loop of `GetMysqlUserAllList` requests
them one after the other and collects their users. -/
theorem userListLoop_full_pages
    (api : GetCloudMysqlUserListRequest →
      Option GetCloudMysqlUserListResponse × Option GoError) :
    ∀ (d p f : Nat) (acc : List (Option CloudMysqlUser))
      (requests : List GetCloudMysqlUserListRequest),
      p + d < 2 ^ 31 →
      (∀ k, k < d → ∃ resp, api ⟨((p + k : Nat) : Int), 100⟩ = (some resp, none) ∧
        resp.CloudMysqlUserList.length = 100) →
      userListLoop api (d + f) acc (p : Int) requests =
        userListLoop api f (acc ++ usersOfPages api p d) ((p + d : Nat) : Int)
          (requests ++ pageRequests p d) := by
  intro d
  induction d with
  | zero =>
    intro p f acc requests _ _
    simp [usersOfPages, pageRequests]
  | succ d ih =>
    intro p f acc requests hp hfull
    obtain ⟨resp, hresp, hlen⟩ := hfull 0 (Nat.succ_pos d)
    simp only [Nat.add_zero] at hresp
    have hwrap : int32Wrap ((p : Int) + 1) = ((p + 1 : Nat) : Int) := by
      rw [int32Wrap_of_range _ (by omega) (by push_cast at hp ⊢; omega)]
      push_cast
      rfl
    have hfull1 : ∀ k, k < d → ∃ resp, api ⟨((p + 1 + k : Nat) : Int), 100⟩ =
        (some resp, none) ∧ resp.CloudMysqlUserList.length = 100 := by
      intro k hk
      have := hfull (k + 1) (by omega)
      rwa [show p + (k + 1) = p + 1 + k by omega] at this
    rw [show d + 1 + f = (d + f) + 1 by omega, userListLoop]
    simp only [hresp, hlen, if_true]
    rw [hwrap, ih (p + 1) f _ _ (by omega) hfull1]
    have hu : usersOfPages api p (d + 1) =
        resp.CloudMysqlUserList ++ usersOfPages api (p + 1) d := by
      rw [usersOfPages, pageUsers, hresp]
    rw [hu, pageRequests, List.append_assoc, List.append_assoc,
      show p + 1 + d = p + (d + 1) by omega]
    rfl

/-- C22: for every sequence of non-failing page responses, `GetMysqlUserAllList` requests
the pages 0, 1, 2, ... in order with page size 100, stops after the first response that is
nil or holds a number of users different from 100 (page `m` here, with every earlier page
holding 100 users), and returns `reverseAndExcludeFirst` of the users received, concatenated
in page order, with a nil error; when no user was received it returns (nil, nil). -/
theorem GetMysqlUserAllList_pages
    (api : GetCloudMysqlUserListRequest →
      Option GetCloudMysqlUserListResponse × Option GoError)
    (m fuel : Nat) (hfuel : m < fuel) (hm : m < 2 ^ 31)
    (hfull : ∀ k, k < m → ∃ resp, api ⟨(k : Int), 100⟩ = (some resp, none) ∧
      resp.CloudMysqlUserList.length = 100)
    (hok : (api ⟨(m : Int), 100⟩).2 = none)
    (hlast : ∀ resp, (api ⟨(m : Int), 100⟩).1 = some resp →
      resp.CloudMysqlUserList.length ≠ 100) :
    (GetMysqlUserAllList fuel api).requests =
      (List.range (m + 1)).map (fun (k : Nat) => ⟨(k : Int), 100⟩) ∧
    (usersOfPages api 0 (m + 1) = [] →
      (GetMysqlUserAllList fuel api).result = .value (none, none)) ∧
    (usersOfPages api 0 (m + 1) ≠ [] →
      (GetMysqlUserAllList fuel api).result =
        .value (some (reverseAndExcludeFirst (usersOfPages api 0 (m + 1))), none)) := by
  obtain ⟨f, rfl⟩ : ∃ f, fuel = m + (f + 1) := ⟨fuel - m - 1, by omega⟩
  have hfull0 : ∀ k, k < m → ∃ resp, api ⟨((0 + k : Nat) : Int), 100⟩ = (some resp, none) ∧
      resp.CloudMysqlUserList.length = 100 := by
    intro k hk
    rw [Nat.zero_add]
    exact hfull k hk
  have hloop := userListLoop_full_pages api m 0 (f + 1) [] [] (by omega) hfull0
  simp only [Nat.cast_zero, Nat.zero_add, List.nil_append] at hloop
  have hreq : pageRequests 0 (m + 1) =
      (List.range (m + 1)).map (fun (k : Nat) => (⟨(k : Int), 100⟩ : GetCloudMysqlUserListRequest)) := by
    rw [pageRequests_eq_map, List.range_eq_range']
  have husers := usersOfPages_succ api m 0
  have hreqs := pageRequests_succ m 0
  simp only [Nat.zero_add] at husers hreqs
  have hfin : GetMysqlUserAllList (m + (f + 1)) api =
      finishUserList (usersOfPages api 0 (m + 1)) (pageRequests 0 (m + 1)) := by
    unfold GetMysqlUserAllList
    rw [hloop, userListLoop]
    simp only [hok]
    cases h1 : (api ⟨(m : Int), 100⟩).1 with
    | none =>
      simp only []
      rw [husers, hreqs, pageUsers, h1, List.append_nil]
    | some resp =>
      simp only []
      rw [if_neg (hlast resp h1), husers, hreqs, pageUsers, h1]
  rw [hfin, ← hreq]
  refine ⟨?_, ?_, ?_⟩
  · unfold finishUserList
    split <;> rfl
  · intro hnil
    rw [hnil]
    rfl
  · intro hne
    have hl : (usersOfPages api 0 (m + 1)).length ≠ 0 :=
      fun h => hne (List.length_eq_zero.1 h)
    rw [finishUserList, if_neg hl]

/-- C22 at a concrete server: page 0 holds 100 users, page 1 holds two, so two pages are
requested and 101 users come back. -/
theorem GetMysqlUserAllList_pages_witness :
    (GetMysqlUserAllList 5 (fun r =>
      if r.PageNo = 0 then
        (some ⟨List.replicate 100 (some ⟨some "u", none, none⟩)⟩, none)
      else (some ⟨[some ⟨some "a", none, none⟩, some ⟨some "b", none, none⟩]⟩,
        none))).requests = [⟨0, 100⟩, ⟨1, 100⟩] :=
  (GetMysqlUserAllList_pages (fun r =>
      if r.PageNo = 0 then
        (some ⟨List.replicate 100 (some ⟨some "u", none, none⟩)⟩, none)
      else (some ⟨[some ⟨some "a", none, none⟩, some ⟨some "b", none, none⟩]⟩, none))
    1 5 (by decide) (by decide)
    (by
      intro k hk
      have hk0 : k = 0 := by omega
      subst hk0
      exact ⟨⟨List.replicate 100 (some ⟨some "u", none, none⟩)⟩, rfl, by simp⟩)
    rfl
    (by
      intro resp hresp
      have : resp = ⟨[some ⟨some "a", none, none⟩, some ⟨some "b", none, none⟩]⟩ :=
        (Option.some.inj hresp).symm
      rw [this]
      decide)).1

/-- C23: if the request for a page fails in `GetMysqlUserAllList` (page `m` here, reached
because every earlier page held 100 users and did not fail), the function returns a nil
list together with exactly that error, whatever was collected from the earlier pages, and
the failed request is the last one it issues. -/
theorem GetMysqlUserAllList_page_failure
    (api : GetCloudMysqlUserListRequest →
      Option GetCloudMysqlUserListResponse × Option GoError)
    (m fuel : Nat) (err : GoError) (hfuel : m < fuel) (hm : m < 2 ^ 31)
    (hfull : ∀ k, k < m → ∃ resp, api ⟨(k : Int), 100⟩ = (some resp, none) ∧
      resp.CloudMysqlUserList.length = 100)
    (herr : (api ⟨(m : Int), 100⟩).2 = some err) :
    (GetMysqlUserAllList fuel api).result = .value (none, some err) ∧
    (GetMysqlUserAllList fuel api).requests =
      (List.range (m + 1)).map (fun (k : Nat) => ⟨(k : Int), 100⟩) ∧
    (GetMysqlUserAllList fuel api).requests.length = m + 1 ∧
    (usersOfPages api 0 m).length = 100 * m := by
  obtain ⟨f, rfl⟩ : ∃ f, fuel = m + (f + 1) := ⟨fuel - m - 1, by omega⟩
  have hfull0 : ∀ k, k < m → ∃ resp, api ⟨((0 + k : Nat) : Int), 100⟩ = (some resp, none) ∧
      resp.CloudMysqlUserList.length = 100 := by
    intro k hk
    rw [Nat.zero_add]
    exact hfull k hk
  have hloop := userListLoop_full_pages api m 0 (f + 1) [] [] (by omega) hfull0
  simp only [Nat.cast_zero, Nat.zero_add, List.nil_append] at hloop
  have hreq : pageRequests 0 (m + 1) =
      (List.range (m + 1)).map (fun (k : Nat) => (⟨(k : Int), 100⟩ : GetCloudMysqlUserListRequest)) := by
    rw [pageRequests_eq_map, List.range_eq_range']
  have hreqs := pageRequests_succ m 0
  simp only [Nat.zero_add] at hreqs
  have hrun : GetMysqlUserAllList (m + (f + 1)) api =
      ⟨pageRequests 0 (m + 1), .value (none, some err)⟩ := by
    unfold GetMysqlUserAllList
    rw [hloop, userListLoop]
    simp only [herr]
    rw [hreqs]
  have hcount : ∀ n, n ≤ m → (usersOfPages api 0 n).length = 100 * n := by
    intro n
    induction n with
    | zero => intro _; rfl
    | succ n ih =>
      intro hn
      obtain ⟨resp, hresp, hlen⟩ := hfull n (by omega)
      have h := usersOfPages_succ api n 0
      simp only [Nat.zero_add] at h
      rw [h, List.length_append, ih (by omega), pageUsers, hresp, hlen]
      omega
  rw [hrun]
  refine ⟨rfl, hreq, ?_, hcount m (le_refl m)⟩
  rw [hreq]
  simp

/-- C23 at a concrete server: page 0 holds 100 users and the request for page 1 fails. -/
theorem GetMysqlUserAllList_page_failure_witness :
    (GetMysqlUserAllList 5 (fun r =>
      if r.PageNo = 0 then
        (some ⟨List.replicate 100 (some ⟨some "u", none, none⟩)⟩, none)
      else (none, some ⟨"connection reset"⟩))).result =
      .value (none, some ⟨"connection reset"⟩) :=
  (GetMysqlUserAllList_page_failure (fun r =>
      if r.PageNo = 0 then
        (some ⟨List.replicate 100 (some ⟨some "u", none, none⟩)⟩, none)
      else (none, some ⟨"connection reset"⟩))
    1 5 ⟨"connection reset"⟩ (by decide) (by decide)
    (by
      intro k hk
      have hk0 : k = 0 := by omega
      subst hk0
      exact ⟨⟨List.replicate 100 (some ⟨some "u", none, none⟩)⟩, rfl, by simp⟩)
    rfl).1

end Ncloud
